import Mathlib

/-!
# Verification of the PSBT (BIP-174) codec of `btcutil/psbt`

This file is a shallow embedding, in Lean 4, of the PSBT packet codec
implemented in `src/btcutil/psbt/psbt.go` (and of the helpers it calls),
together with proofs about that embedding.

Byte streams are modelled as `List Nat` (each element one byte), readers as
pure functions from the remaining stream to `Except Err (result × rest)`,
and writers as pure functions producing the byte list (the only `error`
paths of the Go writers are failures of the underlying `io.Writer`, which
do not exist in the pure model).

Definitions carrying a doc comment starting with `Modelled from the spec:`
embed code of this repository that is not available under `src/` (the wire
transaction codec, the byte-level KV codec `getKey`/`serializeKVpair`,
the per-input/per-output section codecs, `PInput.IsSane`,
`SumUtxoInputValues`); they follow the specification document's description
of those components.  Everything else is translated directly from
`src/btcutil/psbt/psbt.go` / `partialsig.go`.
-/

set_option maxRecDepth 16384

namespace Psbt

/-! ## Errors

The error values of `psbt.go` (lines 46-112) plus the error outcomes of the
underlying byte readers (`io` short-read errors, `wire` non-canonical varint
and max-length errors) and the fuel-exhaustion marker of the loop embedding
(never reached on the canonical fuel, see `parseItems_mono`). -/

inductive Err where
  | unexpectedEOF : Err
  | nonCanonicalVarInt : Err
  | valueExceedsMax : Err
  | invalidMagicBytes : Err
  | invalidFormat : Err
  | duplicateKey : Err
  | invalidKeyData : Err
  | invalidRawTxSigned : Err
  | missingUtxo : Err
  | utxoIndexOutOfRange : Err
  | lengthMismatch : Err
  | fuelExhausted : Err
  deriving DecidableEq, Repr

instance instDecEqExcept {e a : Type} [DecidableEq e] [DecidableEq a] :
    DecidableEq (Except e a) := fun x y => by
  cases x with
  | ok v =>
    cases y with
    | ok w =>
      exact if h : v = w then .isTrue (by rw [h])
        else .isFalse (fun hc => h (Except.ok.inj hc))
    | error w => exact .isFalse (fun hc => Except.noConfusion hc)
  | error v =>
    cases y with
    | ok w => exact .isFalse (fun hc => Except.noConfusion hc)
    | error w =>
      exact if h : v = w then .isTrue (by rw [h])
        else .isFalse (fun hc => h (Except.error.inj hc))

/-! ## Little-endian byte encodings -/

/-- Interpret a byte list as a little-endian natural number. -/
def fromLE : List Nat → Nat
  | [] => 0
  | b :: rest => b + 256 * fromLE rest

/-- `toLE w n` is the `w`-byte little-endian encoding of `n` (mod `256^w`). -/
def toLE : Nat → Nat → List Nat
  | 0, _ => []
  | w + 1, n => (n % 256) :: toLE w (n / 256)

@[simp] theorem toLE_length (w n : Nat) : (toLE w n).length = w := by
  induction w generalizing n with
  | zero => rfl
  | succ w ih => simp [toLE, ih]

theorem fromLE_toLE {w n : Nat} (h : n < 256 ^ w) : fromLE (toLE w n) = n := by
  induction w generalizing n with
  | zero =>
    have : n = 0 := Nat.lt_one_iff.mp (by simpa using h)
    simp [toLE, fromLE, this]
  | succ w ih =>
    have hdiv : n / 256 < 256 ^ w := by
      apply Nat.div_lt_of_lt_mul
      have : 256 ^ (w + 1) = 256 ^ w * 256 := by ring
      omega
    simp [toLE, fromLE, ih hdiv]
    omega

/-- Interpret an 8-byte little-endian string as a two's-complement `int64`,
as Go's cast from `uint64` to `int64` does. -/
def fromLE64Signed (b : List Nat) : Int :=
  if fromLE b < 2 ^ 63 then (fromLE b : Int) else (fromLE b : Int) - 2 ^ 64

/-- The 8-byte little-endian two's-complement encoding of an `int64`. -/
def toLE64Signed (v : Int) : List Nat := toLE 8 (v % 2 ^ 64).toNat

theorem fromLE64Signed_toLE64Signed {v : Int} (h1 : -(2 ^ 63) ≤ v)
    (h2 : v < 2 ^ 63) : fromLE64Signed (toLE64Signed v) = v := by
  have h64 : (2 : Int) ^ 64 = 18446744073709551616 := by norm_num
  have h63 : (2 : Int) ^ 63 = 9223372036854775808 := by norm_num
  have hpow : (256 : Nat) ^ 8 = 18446744073709551616 := by norm_num
  rw [h63] at h1 h2
  have hlt : (v % 18446744073709551616).toNat < 256 ^ 8 := by
    rw [hpow]; omega
  unfold fromLE64Signed toLE64Signed
  have h63n : (2 : Nat) ^ 63 = 9223372036854775808 := by norm_num
  rw [h64, fromLE_toLE hlt, h63n]
  split <;> omega

/-! ## Stream primitives

`readBytes n` is the model of `io.ReadFull` on an `n`-byte buffer: it fails
if fewer than `n` bytes remain. -/

def readBytes (n : Nat) (s : List Nat) : Except Err (List Nat × List Nat) :=
  if s.length < n then .error .unexpectedEOF
  else .ok (s.take n, s.drop n)

theorem readBytes_append (b t : List Nat) :
    readBytes b.length (b ++ t) = .ok (b, t) := by
  unfold readBytes
  rw [if_neg (by simp)]
  simp

theorem readBytes_append_of_length {w : Nat} {b : List Nat} (hb : b.length = w)
    (t : List Nat) : readBytes w (b ++ t) = .ok (b, t) :=
  hb ▸ readBytes_append b t

theorem readBytes_length {n : Nat} {s b r : List Nat}
    (h : readBytes n s = .ok (b, r)) : r.length + n = s.length ∧ b.length = n := by
  unfold readBytes at h
  split at h
  · exact absurd h (by simp)
  · rename_i hge
    obtain ⟨h1, h2⟩ := by simpa using h
    subst h1; subst h2
    constructor
    · simp; omega
    · simp; omega

/-! ## Bitcoin CompactSize varints

`Modelled from the spec:` the variable-length integers of the binary layout
(spec §6); the repository's `wire.ReadVarInt`/`wire.WriteVarInt` are not
under `src/`.  The discriminant byte `0xfd`/`0xfe`/`0xff` selects a 2-, 4-
or 8-byte little-endian payload, and non-canonical (over-long) encodings
are rejected. -/

def readVarInt (s : List Nat) : Except Err (Nat × List Nat) :=
  match s with
  | [] => .error .unexpectedEOF
  | d :: rest =>
    if d < 0xfd then .ok (d, rest)
    else if d = 0xfd then
      match readBytes 2 rest with
      | .error e => .error e
      | .ok (b, r) =>
        if fromLE b < 0xfd then .error .nonCanonicalVarInt else .ok (fromLE b, r)
    else if d = 0xfe then
      match readBytes 4 rest with
      | .error e => .error e
      | .ok (b, r) =>
        if fromLE b ≤ 0xffff then .error .nonCanonicalVarInt else .ok (fromLE b, r)
    else
      match readBytes 8 rest with
      | .error e => .error e
      | .ok (b, r) =>
        if fromLE b ≤ 0xffffffff then .error .nonCanonicalVarInt
        else .ok (fromLE b, r)

def writeVarInt (n : Nat) : List Nat :=
  if n < 0xfd then [n]
  else if n ≤ 0xffff then 0xfd :: toLE 2 n
  else if n ≤ 0xffffffff then 0xfe :: toLE 4 n
  else 0xff :: toLE 8 n

theorem writeVarInt_ne_nil (n : Nat) : writeVarInt n ≠ [] := by
  unfold writeVarInt
  split
  · simp
  · split
    · simp
    · split <;> simp

theorem readVarInt_writeVarInt {n : Nat} (h : n < 2 ^ 64) (t : List Nat) :
    readVarInt (writeVarInt n ++ t) = .ok (n, t) := by
  unfold writeVarInt
  by_cases h1 : n < 0xfd
  · rw [if_pos h1]
    simp [readVarInt, h1]
  · rw [if_neg h1]
    by_cases h2 : n ≤ 0xffff
    · rw [if_pos h2]
      have hb : fromLE (toLE 2 n) = n := fromLE_toLE (by norm_num; omega)
      have hlen : (toLE 2 n).length = 2 := toLE_length 2 n
      norm_num [readVarInt, readBytes_append_of_length hlen, hb, h1]
    · rw [if_neg h2]
      by_cases h3 : n ≤ 0xffffffff
      · rw [if_pos h3]
        have hb : fromLE (toLE 4 n) = n := fromLE_toLE (by norm_num; omega)
        have hlen : (toLE 4 n).length = 4 := toLE_length 4 n
        norm_num [readVarInt, readBytes_append_of_length hlen, hb, h2]
      · rw [if_neg h3]
        have hb : fromLE (toLE 8 n) = n := fromLE_toLE (by norm_num; omega)
        have hlen : (toLE 8 n).length = 8 := toLE_length 8 n
        norm_num [readVarInt, readBytes_append_of_length hlen, hb, h3]

theorem readVarInt_length {s : List Nat} {n : Nat} {r : List Nat}
    (h : readVarInt s = .ok (n, r)) : r.length < s.length := by
  unfold readVarInt at h
  match s with
  | [] => exact absurd h (by simp)
  | d :: rest =>
    simp only at h
    split at h
    · obtain ⟨h1, h2⟩ := by simpa using h
      subst h2; simp
    · split at h
      · split at h
        · exact absurd h (by simp)
        · rename_i heq
          split at h
          · exact absurd h (by simp)
          · obtain ⟨h1, h2⟩ := by simpa using h
            subst h2
            have := readBytes_length heq
            simp; omega
      · split at h
        · split at h
          · exact absurd h (by simp)
          · rename_i heq
            split at h
            · exact absurd h (by simp)
            · obtain ⟨h1, h2⟩ := by simpa using h
              subst h2
              have := readBytes_length heq
              simp; omega
        · split at h
          · exact absurd h (by simp)
          · rename_i heq
            split at h
            · exact absurd h (by simp)
            · obtain ⟨h1, h2⟩ := by simpa using h
              subst h2
              have := readBytes_length heq
              simp; omega

/-! ## Length-prefixed byte strings -/

/-- `Modelled from the spec:` `wire.ReadVarBytes` (not under `src/`): read a
varint count, reject it if it exceeds `maxAllowed` before any allocation,
then read that many bytes (spec §4.1). -/
def readVarBytes (maxAllowed : Nat) (s : List Nat) :
    Except Err (List Nat × List Nat) :=
  match readVarInt s with
  | .error e => .error e
  | .ok (count, r) =>
    if count > maxAllowed then .error .valueExceedsMax
    else readBytes count r

/-- `Modelled from the spec:` `wire.WriteVarBytes` (not under `src/`). -/
def writeVarBytes (b : List Nat) : List Nat := writeVarInt b.length ++ b

theorem readVarBytes_writeVarBytes {maxAllowed : Nat} {b : List Nat}
    (hmax : b.length ≤ maxAllowed) (hlen : b.length < 2 ^ 64) (t : List Nat) :
    readVarBytes maxAllowed (writeVarBytes b ++ t) = .ok (b, t) := by
  unfold readVarBytes writeVarBytes
  rw [List.append_assoc, readVarInt_writeVarInt hlen]
  simp only
  rw [if_neg (by omega), readBytes_append]

theorem readVarBytes_length {m : Nat} {s v r : List Nat}
    (h : readVarBytes m s = .ok (v, r)) : r.length ≤ s.length := by
  unfold readVarBytes at h
  split at h
  · exact absurd h (by simp)
  · rename_i heq
    split at h
    · exact absurd h (by simp)
    · have h1 := readVarInt_length heq
      have h2 := readBytes_length h
      omega

/-! ## The unsigned transaction

`Modelled from the spec:` the repository's `wire.MsgTx` and its legacy
(non-witness) encoding are not under `src/`; the spec (§1, §4.2, §6)
consumes them as the "unsigned-transaction legacy decode/encode" capability:
version (4-byte LE) ∥ varint input count ∥ inputs (32-byte prevout hash,
4-byte LE prevout index, varbytes script-sig, 4-byte LE sequence) ∥ varint
output count ∥ outputs (8-byte LE value, varbytes pk-script) ∥ 4-byte LE
lock time.  The witness data of an input is carried in the in-memory value
only; the legacy encoding omits it. -/

structure OutPoint where
  Hash : List Nat
  Index : Nat
  deriving DecidableEq, Repr

structure TxIn where
  PreviousOutPoint : OutPoint
  SignatureScript : List Nat
  Witness : List (List Nat)
  Sequence : Nat
  deriving DecidableEq, Repr

structure TxOut where
  Value : Int
  PkScript : List Nat
  deriving DecidableEq, Repr

structure MsgTx where
  Version : Nat
  TxIn : List TxIn
  TxOut : List TxOut
  LockTime : Nat
  deriving DecidableEq, Repr

/-- Maximum script length accepted by the wire-level script reader
(`wire.MaxMessagePayload`, 32 MiB). -/
def maxScriptAllowed : Nat := 33554432

def serTxIn (tin : TxIn) : List Nat :=
  tin.PreviousOutPoint.Hash ++ toLE 4 tin.PreviousOutPoint.Index
    ++ writeVarBytes tin.SignatureScript ++ toLE 4 tin.Sequence

def serTxOut (o : TxOut) : List Nat :=
  toLE64Signed o.Value ++ writeVarBytes o.PkScript

/-- `Modelled from the spec:` `wire.MsgTx.SerializeNoWitness`. -/
def serializeNoWitness (tx : MsgTx) : List Nat :=
  toLE 4 tx.Version
    ++ writeVarInt tx.TxIn.length ++ (tx.TxIn.map serTxIn).flatten
    ++ writeVarInt tx.TxOut.length ++ (tx.TxOut.map serTxOut).flatten
    ++ toLE 4 tx.LockTime

def readOutPoint (s : List Nat) : Except Err (OutPoint × List Nat) := do
  let (h, s1) ← readBytes 32 s
  let (ib, s2) ← readBytes 4 s1
  .ok (⟨h, fromLE ib⟩, s2)

def readTxIn (s : List Nat) : Except Err (TxIn × List Nat) := do
  let (op, s1) ← readOutPoint s
  let (script, s2) ← readVarBytes maxScriptAllowed s1
  let (sq, s3) ← readBytes 4 s2
  .ok (⟨op, script, [], fromLE sq⟩, s3)

def readTxOut (s : List Nat) : Except Err (TxOut × List Nat) := do
  let (vb, s1) ← readBytes 8 s
  let (script, s2) ← readVarBytes maxScriptAllowed s1
  .ok (⟨fromLE64Signed vb, script⟩, s2)

/-- Read `n` consecutive items with the item reader `read1`. -/
def readList {α : Type} (read1 : List Nat → Except Err (α × List Nat)) :
    Nat → List Nat → Except Err (List α × List Nat)
  | 0, s => .ok ([], s)
  | n + 1, s => do
    let (a, s1) ← read1 s
    let (as, s2) ← readList read1 n s1
    .ok (a :: as, s2)

/-- `Modelled from the spec:` `wire.MsgTx.DeserializeNoWitness` (legacy
decoding, witnesses left empty); trailing bytes are returned unread. -/
def deserializeNoWitness (s : List Nat) : Except Err (MsgTx × List Nat) := do
  let (vb, s1) ← readBytes 4 s
  let (nIn, s2) ← readVarInt s1
  let (ins, s3) ← readList readTxIn nIn s2
  let (nOut, s4) ← readVarInt s3
  let (outs, s5) ← readList readTxOut nOut s4
  let (lt, s6) ← readBytes 4 s5
  .ok (⟨fromLE vb, ins, outs, fromLE lt⟩, s6)

/-! ### Well-formedness needed for byte round trips -/

def TxInWf (tin : TxIn) : Prop :=
  tin.PreviousOutPoint.Hash.length = 32 ∧ tin.PreviousOutPoint.Index < 2 ^ 32 ∧
    tin.SignatureScript.length ≤ maxScriptAllowed ∧ tin.Sequence < 2 ^ 32

def TxOutWf (o : TxOut) : Prop :=
  -(2 ^ 63) ≤ o.Value ∧ o.Value < 2 ^ 63 ∧ o.PkScript.length ≤ maxScriptAllowed

def TxWf (tx : MsgTx) : Prop :=
  tx.Version < 2 ^ 32 ∧ tx.LockTime < 2 ^ 32 ∧
    tx.TxIn.length < 2 ^ 64 ∧ tx.TxOut.length < 2 ^ 64 ∧
    (∀ tin ∈ tx.TxIn, TxInWf tin) ∧ (∀ o ∈ tx.TxOut, TxOutWf o)

/-- A transaction all of whose inputs carry no in-memory witness data (the
legacy encoding drops witness data, so this is needed for round trips). -/
def TxWitnessFree (tx : MsgTx) : Prop := ∀ tin ∈ tx.TxIn, tin.Witness = []

instance TxInWf_dec (tin : TxIn) : Decidable (TxInWf tin) := by
  unfold TxInWf; infer_instance

instance TxOutWf_dec (o : TxOut) : Decidable (TxOutWf o) := by
  unfold TxOutWf; infer_instance

instance TxWf_dec (tx : MsgTx) : Decidable (TxWf tx) := by
  unfold TxWf; infer_instance

instance TxWitnessFree_dec (tx : MsgTx) : Decidable (TxWitnessFree tx) := by
  unfold TxWitnessFree; infer_instance

theorem readTxIn_serTxIn {tin : TxIn} (hwf : TxInWf tin)
    (hw : tin.Witness = []) (t : List Nat) :
    readTxIn (serTxIn tin ++ t) = .ok (tin, t) := by
  obtain ⟨h32, hidx, hscript, hseq⟩ := hwf
  obtain ⟨⟨hash, index⟩, script, wit, sq⟩ := tin
  simp only at h32 hidx hscript hseq
  simp only at hw
  subst hw
  unfold serTxIn readTxIn readOutPoint
  simp only [List.append_assoc]
  rw [readBytes_append_of_length h32]
  simp only [bind, Except.bind]
  rw [readBytes_append_of_length (toLE_length 4 index)]
  simp only
  rw [readVarBytes_writeVarBytes hscript
    (by unfold maxScriptAllowed at hscript; omega)]
  simp only
  rw [readBytes_append_of_length (toLE_length 4 sq)]
  simp [fromLE_toLE (show index < 256 ^ 4 by norm_num; omega),
    fromLE_toLE (show sq < 256 ^ 4 by norm_num; omega)]

theorem readTxOut_serTxOut {o : TxOut} (hwf : TxOutWf o) (t : List Nat) :
    readTxOut (serTxOut o ++ t) = .ok (o, t) := by
  obtain ⟨hlo, hhi, hscript⟩ := hwf
  obtain ⟨v, script⟩ := o
  simp only at hlo hhi hscript
  unfold serTxOut readTxOut
  simp only [List.append_assoc]
  rw [readBytes_append_of_length (by simp [toLE64Signed] : (toLE64Signed v).length = 8)]
  simp only [bind, Except.bind]
  rw [readVarBytes_writeVarBytes hscript
    (by unfold maxScriptAllowed at hscript; omega)]
  simp [fromLE64Signed_toLE64Signed hlo hhi]

theorem readList_flatten {α : Type} {read1 : List Nat → Except Err (α × List Nat)}
    {ser1 : α → List Nat} {l : List α}
    (h : ∀ a ∈ l, ∀ t : List Nat, read1 (ser1 a ++ t) = .ok (a, t)) (t : List Nat) :
    readList read1 l.length ((l.map ser1).flatten ++ t) = .ok (l, t) := by
  induction l with
  | nil => simp [readList]
  | cons a as ih =>
    simp only [List.map_cons, List.flatten_cons, List.length_cons, List.append_assoc]
    unfold readList
    rw [h a (by simp) _]
    simp only [bind, Except.bind]
    rw [ih (fun x hx t' => h x (by simp [hx]) t')]

theorem deserializeNoWitness_serializeNoWitness {tx : MsgTx} (hwf : TxWf tx)
    (hw : TxWitnessFree tx) (t : List Nat) :
    deserializeNoWitness (serializeNoWitness tx ++ t) = .ok (tx, t) := by
  obtain ⟨hv, hlock, hnin, hnout, hins, houts⟩ := hwf
  obtain ⟨version, ins, outs, lock⟩ := tx
  simp only at hv hlock hnin hnout hins houts
  unfold TxWitnessFree at hw
  simp only at hw
  unfold serializeNoWitness deserializeNoWitness
  simp only [List.append_assoc]
  rw [readBytes_append_of_length (toLE_length 4 version)]
  simp only [bind, Except.bind]
  rw [readVarInt_writeVarInt hnin]
  simp only
  rw [readList_flatten (fun a ha t' => readTxIn_serTxIn (hins a ha) (hw a ha) t')]
  simp only
  rw [readVarInt_writeVarInt hnout]
  simp only
  rw [readList_flatten (fun a ha t' => readTxOut_serTxOut (houts a ha) t')]
  simp only
  rw [readBytes_append_of_length (toLE_length 4 lock)]
  simp [fromLE_toLE (show version < 256 ^ 4 by norm_num; omega),
    fromLE_toLE (show lock < 256 ^ 4 by norm_num; omega)]

/-! ## PSBT constants (`psbt.go` lines 20-44) -/

/-- Length of the magic prefix (`psbtMagicLength`). -/
def psbtMagicLength : Nat := 5

/-- The magic bytes `"psbt" ∥ 0xff` (`psbtMagic`). -/
def psbtMagic : List Nat := [0x70, 0x73, 0x62, 0x74, 0xff]

/-- `MaxPsbtValueLength` (`psbt.go` line 34). -/
def MaxPsbtValueLength : Nat := 4000000

/-- `MaxPsbtKeyLength` (`psbt.go` line 38). -/
def MaxPsbtKeyLength : Nat := 10000

/-- `MaxPsbtKeyValue` (`psbt.go` line 44). -/
def MaxPsbtKeyValue : Nat := 0x02000000

/-- Global key type 0x00, `UnsignedTxType`. -/
def UnsignedTxType : Nat := 0

/-- Global key type 0x01, `XPubType`. -/
def XPubType : Nat := 1

/-! ## The byte-level KV codec -/

/-- `Modelled from the spec:` the byte-level KV codec's
`read_key(stream) -> (type_code, type_specific_key_bytes, end_of_section)`
(spec §4.1); the source's `getKey` is not under `src/`.  A varint gives the
whole key length; zero signals the end-of-section separator (returned as
`none`); a length above `MaxPsbtKeyLength` fails with the invalid-key-data
error before reading the key; the first key byte is the type code (spec §6),
range-checked against `MaxPsbtKeyValue`; the remaining bytes are the
type-specific key data (empty data plays the role of Go's `nil`).  A failure
of the leading varint read is reported as the invalid-format error. -/
def getKey (s : List Nat) : Except Err (Option (Nat × List Nat) × List Nat) :=
  match readVarInt s with
  | .error _ => .error .invalidFormat
  | .ok (count, r) =>
    if count = 0 then .ok (none, r)
    else if count > MaxPsbtKeyLength then .error .invalidKeyData
    else match readBytes count r with
      | .error e => .error e
      | .ok (keyTypeAndData, r2) =>
        if keyTypeAndData.headI ≥ MaxPsbtKeyValue then .error .invalidKeyData
        else .ok (some (keyTypeAndData.headI, keyTypeAndData.tail), r2)

/-- `Modelled from the spec:` the KV codec's
`write_kv` for a raw key (spec §4.1): varint key length ∥ key ∥ varint value
length ∥ value; the source's `serializeKVpair` is not under `src/`. -/
def serializeKVpair (key value : List Nat) : List Nat :=
  writeVarInt key.length ++ key ++ writeVarInt value.length ++ value

/-- `Modelled from the spec:` `serializeKVPairWithType` (not under `src/`):
the one-byte type code is prepended to the type-specific key data. -/
def serializeKVPairWithType (keyType : Nat) (keyData value : List Nat) :
    List Nat :=
  serializeKVpair (keyType :: keyData) value

theorem headI_cons_tail {l : List Nat} (h : l ≠ []) : l.headI :: l.tail = l := by
  cases l with
  | nil => exact absurd rfl h
  | cons a as => rfl

theorem take_append_of_length {α : Type} {l₁ : List α} {n : Nat}
    (h : l₁.length = n) (l₂ : List α) : (l₁ ++ l₂).take n = l₁ := by
  subst h; simp

theorem drop_append_of_length {α : Type} {l₁ : List α} {n : Nat}
    (h : l₁.length = n) (l₂ : List α) : (l₁ ++ l₂).drop n = l₂ := by
  subst h; simp

theorem getKey_serializeKVpair {key : List Nat} (h1 : key ≠ [])
    (h2 : key.length ≤ MaxPsbtKeyLength) (h3 : key.headI < MaxPsbtKeyValue)
    (t : List Nat) :
    getKey (writeVarInt key.length ++ key ++ t) =
      .ok (some (key.headI, key.tail), t) := by
  unfold getKey
  rw [List.append_assoc, readVarInt_writeVarInt
    (by unfold MaxPsbtKeyLength at h2; norm_num; omega)]
  simp only
  rw [if_neg (by simpa using h1), if_neg (by omega), readBytes_append]
  simp [show ¬ key.headI ≥ MaxPsbtKeyValue by omega]

theorem getKey_separator (t : List Nat) : getKey (0 :: t) = .ok (none, t) := by
  unfold getKey
  norm_num [readVarInt]

theorem getKey_length {s : List Nat} {kv : Nat × List Nat} {r : List Nat}
    (h : getKey s = .ok (some kv, r)) : r.length < s.length := by
  unfold getKey at h
  split at h
  · exact absurd h (by simp)
  · rename_i hvar
    split at h
    · exact absurd h (by simp)
    · split at h
      · exact absurd h (by simp)
      · split at h
        · exact absurd h (by simp)
        · rename_i hbytes
          split at h
          · exact absurd h (by simp)
          · obtain ⟨h1, h2⟩ := by simpa using h
            subst h2
            have ha := readVarInt_length hvar
            have hb := readBytes_length hbytes
            omega

/-! ## PSBT entity types (`psbt.go` lines 114-147, `partialsig.go`, and the
spec's data model §3) -/

/-- `Unknown` (`psbt.go` lines 117-120). -/
structure Unknown where
  Key : List Nat
  Value : List Nat
  deriving DecidableEq, Repr

/-- `PartialSig` (`partialsig.go`). -/
structure PartialSig where
  PubKey : List Nat
  Signature : List Nat
  deriving DecidableEq, Repr

/-- `Modelled from the spec:` a BIP-32 derivation entry (public key, master
key fingerprint, derivation path of 4-byte indices); the source's
`Bip32Derivation` type is not under `src/` (spec §3, §6). -/
structure Bip32Derivation where
  PubKey : List Nat
  MasterKeyFingerprint : Nat
  Bip32Path : List Nat
  deriving DecidableEq, Repr

/-- `Modelled from the spec:` `XPub` (spec §3): an opaque extended key,
global-section-unique by its bytes, with fingerprint and path. -/
structure XPub where
  ExtendedKey : List Nat
  MasterKeyFingerprint : Nat
  Bip32Path : List Nat
  deriving DecidableEq, Repr

/-- `Modelled from the spec:` `PInput` (spec §3): per-input fields — the two
mutually-exclusive UTXO forms, scripts, derivations, partial signatures,
sighash type, final fields, proof-of-reserves commitment and unknowns. -/
structure PInput where
  NonWitnessUtxo : Option MsgTx
  WitnessUtxo : Option TxOut
  PartialSigs : List PartialSig
  SighashType : Option Nat
  RedeemScript : Option (List Nat)
  WitnessScript : Option (List Nat)
  Bip32Derivation : List Bip32Derivation
  FinalScriptSig : Option (List Nat)
  FinalScriptWitness : Option (List Nat)
  PorCommitment : Option (List Nat)
  Unknowns : List Unknown
  deriving DecidableEq, Repr

/-- The zero value of `PInput` (Go's `PInput{}`). -/
def PInput.empty : PInput := ⟨none, none, [], none, none, none, [], none, none, none, []⟩

/-- `Modelled from the spec:` `POutput` (spec §3): redeem script, witness
script, BIP-32 derivations, unknown pairs. -/
structure POutput where
  RedeemScript : Option (List Nat)
  WitnessScript : Option (List Nat)
  Bip32Derivation : List Bip32Derivation
  Unknowns : List Unknown
  deriving DecidableEq, Repr

/-- The zero value of `POutput` (Go's `POutput{}`). -/
def POutput.empty : POutput := ⟨none, none, [], []⟩

/-- `Packet` (`psbt.go` lines 126-147). -/
structure Packet where
  UnsignedTx : MsgTx
  Inputs : List PInput
  Outputs : List POutput
  XPubs : List XPub
  Unknowns : List Unknown
  deriving DecidableEq, Repr

/-! ## Validation helpers -/

/-- `validateUnsignedTX` (`psbt.go` lines 152-160): true iff no input has a
script-sig or witness. -/
def validateUnsignedTX (tx : MsgTx) : Bool :=
  tx.TxIn.all fun tin => tin.SignatureScript.isEmpty && tin.Witness.isEmpty

/-- `Modelled from the spec:` the external capability
`validate_pubkey(bytes) -> bool` (spec §1, consumed from the elliptic-curve
package): a stand-in byte-level well-formedness check — a compressed
(33-byte, `0x02`/`0x03`-tagged) or uncompressed (65-byte, `0x04`-tagged)
serialization. -/
def validatePubkey (pubKey : List Nat) : Bool :=
  (pubKey.length == 33 && (pubKey.headI == 2 || pubKey.headI == 3)) ||
    (pubKey.length == 65 && pubKey.headI == 4)

/-- `Modelled from the spec:` the external capability
`validate_der_signature(bytes) -> bool` (spec §1): a stand-in byte-level
check — non-empty and tagged with the DER sequence tag `0x30`. -/
def validateSignature (sig : List Nat) : Bool :=
  !sig.isEmpty && sig.headI == 0x30

/-- `PartialSig.checkValid` (`partialsig.go`). -/
def PartialSig.checkValid (ps : PartialSig) : Bool :=
  validatePubkey ps.PubKey && validateSignature ps.Signature

/-! ## BIP-32 derivation codec -/

/-- Split a byte list into 4-byte little-endian words. -/
def leU32List : List Nat → List Nat
  | a :: b :: c :: d :: rest => fromLE [a, b, c, d] :: leU32List rest
  | _ => []

/-- `Modelled from the spec:` `ReadBip32Derivation` (not under `src/`): the
value must be a 4-byte fingerprint followed by whole 4-byte path indices
(spec §6), otherwise the invalid-format error. -/
def ReadBip32Derivation (path : List Nat) : Except Err (Nat × List Nat) :=
  if path.length < 4 ∨ path.length % 4 ≠ 0 then .error .invalidFormat
  else .ok (fromLE (path.take 4), leU32List (path.drop 4))

/-- `Modelled from the spec:` `SerializeBIP32Derivation` (not under `src/`):
4-byte LE fingerprint then each path index as 4-byte LE (spec §6). -/
def SerializeBIP32Derivation (masterKeyFingerprint : Nat)
    (bip32Path : List Nat) : List Nat :=
  toLE 4 masterKeyFingerprint ++ (bip32Path.map (toLE 4)).flatten

/-- `Modelled from the spec:` `ReadXPub` (not under `src/`): the key data is
the opaque extended key, the value decodes as a BIP-32 derivation. -/
def ReadXPub (keyData value : List Nat) : Except Err XPub :=
  match ReadBip32Derivation value with
  | .error e => .error e
  | .ok (fp, path) => .ok ⟨keyData, fp, path⟩

theorem leU32List_toLE4 (i : Nat) (z : List Nat) :
    leU32List (toLE 4 i ++ z) = fromLE (toLE 4 i) :: leU32List z := rfl

theorem leU32List_flatten {path : List Nat} (h : ∀ i ∈ path, i < 2 ^ 32) :
    leU32List ((path.map (toLE 4)).flatten) = path := by
  induction path with
  | nil => rfl
  | cons i rest ih =>
    have hi : i < 2 ^ 32 := h i (by simp)
    simp only [List.map_cons, List.flatten_cons, leU32List_toLE4]
    rw [ih (fun j hj => h j (by simp [hj])), fromLE_toLE (by norm_num; omega)]

theorem flatten_map_toLE4_length (path : List Nat) :
    ((path.map (toLE 4)).flatten).length = 4 * path.length := by
  induction path with
  | nil => rfl
  | cons i rest ih => simp [ih]; omega

theorem ReadBip32Derivation_roundtrip {fp : Nat} {path : List Nat}
    (hfp : fp < 2 ^ 32) (hpath : ∀ i ∈ path, i < 2 ^ 32) :
    ReadBip32Derivation (SerializeBIP32Derivation fp path) = .ok (fp, path) := by
  unfold ReadBip32Derivation SerializeBIP32Derivation
  have hlen4 : (toLE 4 fp).length = 4 := toLE_length 4 fp
  have hflat := flatten_map_toLE4_length path
  have hlen : (toLE 4 fp ++ (path.map (toLE 4)).flatten).length = 4 + 4 * path.length := by
    simp [hflat]
  rw [if_neg (by omega), take_append_of_length hlen4, drop_append_of_length hlen4,
    fromLE_toLE (by norm_num; omega), leU32List_flatten hpath]

/-! ## The section-parsing loop

All three KV-pair loops of the parser — the global unknown/xpub loop of
`NewFromRawBytes` (`psbt.go` lines 246-288) and the spec-modelled
`PInput.deserialize`/`POutput.deserialize` loops (spec §4.2 step 4) — share
one shape: read a key (stopping at the separator), read a value bounded by
`MaxPsbtValueLength`, dispatch on the key type into an accumulator.  They
differ in the accumulator, in the dispatch (`applyItem`), and in whether a
`getKey` failure is replaced by the generic invalid-format error
(`keyErrReplace`; the global loop of `psbt.go` line 248-249 replaces it, the
section loops pass it through).  The loop is embedded with explicit fuel;
callers supply `stream length + 1`, which `parseItems_mono` together with
the one-byte-per-iteration minimum shows is never exhausted. -/

def parseItems {σ : Type} (applyItem : σ → Nat → List Nat → List Nat → Except Err σ)
    (keyErrReplace : Bool) : Nat → List Nat → σ → Except Err (σ × List Nat)
  | 0, _, _ => .error .fuelExhausted
  | fuel + 1, s, acc =>
    match getKey s with
    | .error e => .error (if keyErrReplace then .invalidFormat else e)
    | .ok (none, rest) => .ok (acc, rest)
    | .ok (some (keyint, keydata), rest) =>
      match readVarBytes MaxPsbtValueLength rest with
      | .error e => .error e
      | .ok (value, rest2) =>
        match applyItem acc keyint keydata value with
        | .error e => .error e
        | .ok acc2 => parseItems applyItem keyErrReplace fuel rest2 acc2

/-- The global-section dispatch of `NewFromRawBytes` (`psbt.go` lines
262-287).  `firstKeyData` is the `keyData` variable bound at line 212 and
referenced (rather than the loop's own `keydata`) by the duplicate check of
line 271; an unknown key stores the type byte (Go truncates `keyint` with a
`byte(...)` cast, hence `% 256`) prepended to the key data. -/
def applyGlobalItem (firstKeyData : List Nat) (acc : List XPub × List Unknown)
    (keyint : Nat) (keydata value : List Nat) :
    Except Err (List XPub × List Unknown) :=
  if keyint = XPubType then
    match ReadXPub keydata value with
    | .error e => .error e
    | .ok xPub =>
      if acc.1.any (fun x => x.ExtendedKey == firstKeyData) then
        .error .duplicateKey
      else .ok (acc.1 ++ [xPub], acc.2)
  else
    .ok (acc.1, acc.2 ++ [⟨keyint % 256 :: keydata, value⟩])

/-- `Modelled from the spec:` the per-input dispatch of
`PInput.deserialize` (not under `src/`; spec §4.2 step 4): each known input
key type — UTXO (0x00/0x01), partial signature (0x02), sighash (0x03),
scripts (0x04/0x05), derivation (0x06), final fields (0x07/0x08),
proof-of-reserves commitment (0x09) — is decoded and stored, rejecting
duplicates; anything else is preserved as an `Unknown` pair with the type
byte prepended. -/
def applyInputItem (acc : PInput) (keyint : Nat) (keydata value : List Nat) :
    Except Err PInput :=
  if keyint = 0 then
    if acc.NonWitnessUtxo.isSome then .error .duplicateKey
    else if keydata ≠ [] then .error .invalidKeyData
    else match deserializeNoWitness value with
      | .error e => .error e
      | .ok (tx, _) => .ok { acc with NonWitnessUtxo := some tx }
  else if keyint = 1 then
    if acc.WitnessUtxo.isSome then .error .duplicateKey
    else if keydata ≠ [] then .error .invalidKeyData
    else match readTxOut value with
      | .error e => .error e
      | .ok (txout, _) => .ok { acc with WitnessUtxo := some txout }
  else if keyint = 2 then
    if !(PartialSig.checkValid ⟨keydata, value⟩) then .error .invalidFormat
    else if acc.PartialSigs.any (fun ps => ps.PubKey == keydata) then
      .error .duplicateKey
    else .ok { acc with PartialSigs := acc.PartialSigs ++ [⟨keydata, value⟩] }
  else if keyint = 3 then
    if acc.SighashType.isSome then .error .duplicateKey
    else if keydata ≠ [] then .error .invalidKeyData
    else if value.length ≠ 4 then .error .invalidFormat
    else .ok { acc with SighashType := some (fromLE value) }
  else if keyint = 4 then
    if acc.RedeemScript.isSome then .error .duplicateKey
    else if keydata ≠ [] then .error .invalidKeyData
    else .ok { acc with RedeemScript := some value }
  else if keyint = 5 then
    if acc.WitnessScript.isSome then .error .duplicateKey
    else if keydata ≠ [] then .error .invalidKeyData
    else .ok { acc with WitnessScript := some value }
  else if keyint = 6 then
    if !(validatePubkey keydata) then .error .invalidFormat
    else if acc.Bip32Derivation.any (fun d => d.PubKey == keydata) then
      .error .duplicateKey
    else match ReadBip32Derivation value with
      | .error e => .error e
      | .ok (fp, path) =>
        .ok { acc with Bip32Derivation := acc.Bip32Derivation ++ [⟨keydata, fp, path⟩] }
  else if keyint = 7 then
    if acc.FinalScriptSig.isSome then .error .duplicateKey
    else if keydata ≠ [] then .error .invalidKeyData
    else .ok { acc with FinalScriptSig := some value }
  else if keyint = 8 then
    if acc.FinalScriptWitness.isSome then .error .duplicateKey
    else if keydata ≠ [] then .error .invalidKeyData
    else .ok { acc with FinalScriptWitness := some value }
  else if keyint = 9 then
    if acc.PorCommitment.isSome then .error .duplicateKey
    else if keydata ≠ [] then .error .invalidKeyData
    else .ok { acc with PorCommitment := some value }
  else
    .ok { acc with Unknowns := acc.Unknowns ++ [⟨keyint % 256 :: keydata, value⟩] }

/-- `Modelled from the spec:` the per-output dispatch of
`POutput.deserialize` (not under `src/`; spec §4.2 step 4): redeem script
(0x00), witness script (0x01), BIP-32 derivation (0x02), else unknown. -/
def applyOutputItem (acc : POutput) (keyint : Nat) (keydata value : List Nat) :
    Except Err POutput :=
  if keyint = 0 then
    if acc.RedeemScript.isSome then .error .duplicateKey
    else if keydata ≠ [] then .error .invalidKeyData
    else .ok { acc with RedeemScript := some value }
  else if keyint = 1 then
    if acc.WitnessScript.isSome then .error .duplicateKey
    else if keydata ≠ [] then .error .invalidKeyData
    else .ok { acc with WitnessScript := some value }
  else if keyint = 2 then
    if !(validatePubkey keydata) then .error .invalidFormat
    else if acc.Bip32Derivation.any (fun d => d.PubKey == keydata) then
      .error .duplicateKey
    else match ReadBip32Derivation value with
      | .error e => .error e
      | .ok (fp, path) =>
        .ok { acc with Bip32Derivation := acc.Bip32Derivation ++ [⟨keydata, fp, path⟩] }
  else
    .ok { acc with Unknowns := acc.Unknowns ++ [⟨keyint % 256 :: keydata, value⟩] }

/-- `Modelled from the spec:` `PInput.deserialize` (spec §4.2 step 4): read
KV pairs up to and including the input section's separator. -/
def PInput.deserialize (s : List Nat) : Except Err (PInput × List Nat) :=
  parseItems applyInputItem false (s.length + 1) s PInput.empty

/-- `Modelled from the spec:` `POutput.deserialize` (spec §4.2 step 4). -/
def POutput.deserialize (s : List Nat) : Except Err (POutput × List Nat) :=
  parseItems applyOutputItem false (s.length + 1) s POutput.empty

/-! ## Section serializers -/

/-- Serialize an optional single record. -/
def optRegion {α : Type} (chunkOf : α → List Nat) : Option α → List Nat
  | none => []
  | some v => chunkOf v

/-- `Modelled from the spec:` `PInput.serialize` (spec §4.3): the input's
records in a fixed order — UTXO, scripts, derivations, signatures, sighash,
proof-of-reserves, final fields, unknowns — without the trailing separator
(written by `Packet.Serialize`). -/
def PInput.serialize (pin : PInput) : List Nat :=
  optRegion (fun tx => serializeKVPairWithType 0 [] (serializeNoWitness tx))
      pin.NonWitnessUtxo
    ++ optRegion (fun o => serializeKVPairWithType 1 [] (serTxOut o))
      pin.WitnessUtxo
    ++ optRegion (serializeKVPairWithType 4 []) pin.RedeemScript
    ++ optRegion (serializeKVPairWithType 5 []) pin.WitnessScript
    ++ (pin.Bip32Derivation.map (fun d => serializeKVPairWithType 6 d.PubKey
        (SerializeBIP32Derivation d.MasterKeyFingerprint d.Bip32Path))).flatten
    ++ (pin.PartialSigs.map (fun ps =>
        serializeKVPairWithType 2 ps.PubKey ps.Signature)).flatten
    ++ optRegion (fun sh => serializeKVPairWithType 3 [] (toLE 4 sh))
      pin.SighashType
    ++ optRegion (serializeKVPairWithType 9 []) pin.PorCommitment
    ++ optRegion (serializeKVPairWithType 7 []) pin.FinalScriptSig
    ++ optRegion (serializeKVPairWithType 8 []) pin.FinalScriptWitness
    ++ (pin.Unknowns.map (fun kv => serializeKVpair kv.Key kv.Value)).flatten

/-- `Modelled from the spec:` `POutput.serialize` (spec §4.3). -/
def POutput.serialize (pout : POutput) : List Nat :=
  optRegion (serializeKVPairWithType 0 []) pout.RedeemScript
    ++ optRegion (serializeKVPairWithType 1 []) pout.WitnessScript
    ++ (pout.Bip32Derivation.map (fun d => serializeKVPairWithType 2 d.PubKey
        (SerializeBIP32Derivation d.MasterKeyFingerprint d.Bip32Path))).flatten
    ++ (pout.Unknowns.map (fun kv => serializeKVpair kv.Key kv.Value)).flatten

/-! ## Packet-level operations (`psbt.go`) -/

/-- `Modelled from the spec:` `PInput.IsSane` (spec §4.4 and §9): an input
that is already finalized (a final script-sig or final witness present) must
not also carry the pre-finalization signing fields — partial signatures,
sighash type, redeem/witness script, derivations or a proof-of-reserves
commitment. -/
def PInput.IsSane (pi : PInput) : Bool :=
  !((pi.FinalScriptSig.isSome || pi.FinalScriptWitness.isSome) &&
    (!pi.PartialSigs.isEmpty || pi.SighashType.isSome ||
      pi.RedeemScript.isSome || pi.WitnessScript.isSome ||
      !pi.Bip32Derivation.isEmpty || pi.PorCommitment.isSome))

/-- `Packet.SanityCheck` (`psbt.go` lines 439-451). -/
def Packet.SanityCheck (p : Packet) : Except Err Unit :=
  if !(validateUnsignedTX p.UnsignedTx) then .error .invalidRawTxSigned
  else if p.Inputs.any (fun tin => !(tin.IsSane)) then .error .invalidFormat
  else .ok ()

/-- `isFinalized` (package-level helper used by `Packet.IsComplete`): Go
indexes `p.Inputs[inIndex]` and would panic out of range; the model returns
`false` there, the theorems only use in-range indices. -/
def isFinalized (p : Packet) (inIndex : Nat) : Bool :=
  match p.Inputs.get? inIndex with
  | some input => input.FinalScriptSig.isSome || input.FinalScriptWitness.isSome
  | none => false

/-- `Packet.IsComplete` (`psbt.go` lines 428-435): a loop over the indices
of the unsigned transaction's inputs. -/
def Packet.IsComplete (p : Packet) : Bool :=
  (List.range p.UnsignedTx.TxIn.length).all fun i => isFinalized p i

/-- A `PInput` in the finalized state (final script-sig and/or final
witness populated; spec §4.5). -/
def PInput.isFinal (pin : PInput) : Bool :=
  pin.FinalScriptSig.isSome || pin.FinalScriptWitness.isSome

/-- `NewFromUnsignedTx` (`psbt.go` lines 164-181). -/
def NewFromUnsignedTx (tx : MsgTx) : Except Err Packet :=
  if !(validateUnsignedTX tx) then .error .invalidRawTxSigned
  else .ok ⟨tx, List.replicate tx.TxIn.length PInput.empty,
    List.replicate tx.TxOut.length POutput.empty, [], []⟩

/-- `Packet.Serialize` (`psbt.go` lines 334-411): magic, the global
unsigned-transaction record, xpub records in stored order, unknown records
in stored order, the global separator, then each input and each output
section followed by its separator. -/
def Packet.Serialize (p : Packet) : List Nat :=
  psbtMagic
    ++ serializeKVPairWithType UnsignedTxType []
      (serializeNoWitness p.UnsignedTx)
    ++ (p.XPubs.map (fun xPub => serializeKVPairWithType XPubType
        xPub.ExtendedKey (SerializeBIP32Derivation xPub.MasterKeyFingerprint
          xPub.Bip32Path))).flatten
    ++ (p.Unknowns.map (fun kv => serializeKVpair kv.Key kv.Value)).flatten
    ++ [0]
    ++ (p.Inputs.map (fun pInput => pInput.serialize ++ [0])).flatten
    ++ (p.Outputs.map (fun pOutput => pOutput.serialize ++ [0])).flatten

/-- `NewFromRawBytes` (`psbt.go` lines 190-330) for `b64 = false` (the
base64 wrapper only pre-decodes the stream).  Magic check; mandatory first
global key `UnsignedTxType` with empty key data; unsigned transaction
decoded from the value with the legacy encoding and checked unsigned;
xpub/unknown loop; one input section per transaction input; one output
section per transaction output; final `SanityCheck`.  Trailing bytes are
ignored, as in Go. -/
def NewFromRawBytes (s : List Nat) : Except Err Packet :=
  match readBytes psbtMagicLength s with
  | .error e => .error e
  | .ok (magic, r1) =>
    if magic ≠ psbtMagic then .error .invalidMagicBytes
    else match getKey r1 with
    | .error e => .error e
    | .ok (none, _) => .error .invalidFormat
    | .ok (some (keyCode, keyData), r2) =>
      if keyCode ≠ UnsignedTxType ∨ keyData ≠ [] then .error .invalidFormat
      else match readVarBytes MaxPsbtValueLength r2 with
      | .error e => .error e
      | .ok (value, r3) =>
        match deserializeNoWitness value with
        | .error e => .error e
        | .ok (msgTx, _) =>
          if !(validateUnsignedTX msgTx) then .error .invalidRawTxSigned
          else match parseItems (applyGlobalItem keyData) true (r3.length + 1)
              r3 ([], []) with
          | .error e => .error e
          | .ok ((xPubSlice, unknownSlice), r4) =>
            match readList PInput.deserialize msgTx.TxIn.length r4 with
            | .error e => .error e
            | .ok (inSlice, r5) =>
              match readList POutput.deserialize msgTx.TxOut.length r5 with
              | .error e => .error e
              | .ok (outSlice, _) =>
                let newPsbt : Packet :=
                  ⟨msgTx, inSlice, outSlice, xPubSlice, unknownSlice⟩
                match newPsbt.SanityCheck with
                | .error e => .error e
                | .ok _ => .ok newPsbt

/-- `Modelled from the spec:` the UTXO resolution of `SumUtxoInputValues`
for one input (spec §4.6): the witness UTXO's value if present, else the
referenced output of the full non-witness UTXO (out-of-range reference is
an error), else the missing-UTXO error. -/
def utxoValueOf (pin : PInput) (tin : TxIn) : Except Err Int :=
  match pin.WitnessUtxo with
  | some u => .ok u.Value
  | none =>
    match pin.NonWitnessUtxo with
    | some tx =>
      match tx.TxOut.get? tin.PreviousOutPoint.Index with
      | some o => .ok o.Value
      | none => .error .utxoIndexOutOfRange
    | none => .error .missingUtxo

/-- `Modelled from the spec:` the recursion of `SumUtxoInputValues` over
the paired packet inputs and transaction inputs. -/
def sumUtxoGo : List (PInput × TxIn) → Except Err Int
  | [] => .ok 0
  | (pin, tin) :: rest =>
    match utxoValueOf pin tin with
    | .error e => .error e
    | .ok v =>
      match sumUtxoGo rest with
      | .error e => .error e
      | .ok s => .ok (v + s)

/-- `Modelled from the spec:` `SumUtxoInputValues` (not under `src/`; spec
§4.6): sums each input's value from its UTXO information, failing with the
missing-UTXO error when an input lacks it; a packet whose `Inputs` list
disagrees in length with the transaction's inputs is rejected outright. -/
def SumUtxoInputValues (p : Packet) : Except Err Int :=
  if p.UnsignedTx.TxIn.length ≠ p.Inputs.length then .error .lengthMismatch
  else sumUtxoGo (p.Inputs.zip p.UnsignedTx.TxIn)

/-- Normalize an integer into the `int64` range by two's-complement
wrapping, as every Go `int64` operation does on overflow. -/
def wrapInt64 (v : Int) : Int :=
  if v % 2 ^ 64 < 2 ^ 63 then v % 2 ^ 64 else v % 2 ^ 64 - 2 ^ 64

/-- `Packet.GetTxFee` (`psbt.go` lines 455-468).  The output sum is
accumulated in a Go `int64` (`var sumOutputs int64; sumOutputs +=
txOut.Value`, line 461-464) and the fee is the `int64` difference
`sumInputs - sumOutputs` (line 466): each of these operations wraps on
overflow, modelled by `wrapInt64`. -/
def Packet.GetTxFee (p : Packet) : Except Err Int :=
  match SumUtxoInputValues p with
  | .error e => .error e
  | .ok sumInputs =>
    .ok (wrapInt64 (sumInputs - p.UnsignedTx.TxOut.foldl
      (fun sumOutputs txOut => wrapInt64 (sumOutputs + txOut.Value)) 0))

/-! ## Loop lemmas -/

theorem getKey_typed {keyType : Nat} {keyData : List Nat}
    (h2 : keyData.length + 1 ≤ MaxPsbtKeyLength) (h3 : keyType < MaxPsbtKeyValue)
    (t : List Nat) :
    getKey (writeVarInt (keyData.length + 1) ++ (keyType :: (keyData ++ t))) =
      .ok (some (keyType, keyData), t) := by
  have h := @getKey_serializeKVpair (keyType :: keyData) (by simp)
    (by simpa using h2) (by simpa using h3) t
  simpa using h

theorem parseItems_mono {σ : Type}
    {ap : σ → Nat → List Nat → List Nat → Except Err σ} {flag : Bool}
    {f f' : Nat} {s : List Nat} {acc : σ} {r : σ × List Nat}
    (hf : f ≤ f') (h : parseItems ap flag f s acc = .ok r) :
    parseItems ap flag f' s acc = .ok r := by
  induction f generalizing f' s acc with
  | zero => exact absurd h (by simp [parseItems])
  | succ g ih =>
    obtain ⟨g', rfl⟩ : ∃ g', f' = g' + 1 := ⟨f' - 1, by omega⟩
    unfold parseItems at h ⊢
    match hk : getKey s with
    | .error e => rw [hk] at h; exact absurd h (by simp)
    | .ok (none, rest) => rw [hk] at h; exact h
    | .ok (some (keyint, keydata), rest) =>
      rw [hk] at h
      dsimp only at h
      dsimp only
      match hv : readVarBytes MaxPsbtValueLength rest with
      | .error e => rw [hv] at h; exact absurd h (by simp)
      | .ok (value, rest2) =>
        rw [hv] at h
        dsimp only at h
        dsimp only
        match ha : ap acc keyint keydata value with
        | .error e => rw [ha] at h; exact absurd h (by simp)
        | .ok acc2 =>
          rw [ha] at h
          dsimp only at h
          dsimp only
          exact ih (by omega) h

theorem parseItems_step {σ : Type}
    (ap : σ → Nat → List Nat → List Nat → Except Err σ) (flag : Bool)
    {keyType : Nat} {keyData value : List Nat} {acc acc' : σ}
    (hkey : keyType < MaxPsbtKeyValue)
    (hklen : keyData.length + 1 ≤ MaxPsbtKeyLength)
    (hvlen : value.length ≤ MaxPsbtValueLength)
    (happly : ap acc keyType keyData value = .ok acc')
    (f : Nat) (t : List Nat) :
    parseItems ap flag (f + 1)
      (serializeKVPairWithType keyType keyData value ++ t) acc =
      parseItems ap flag f t acc' := by
  unfold serializeKVPairWithType serializeKVpair
  conv_lhs => unfold parseItems
  simp only [List.append_assoc, List.cons_append, List.length_cons]
  rw [getKey_typed hklen hkey]
  dsimp only
  rw [show writeVarInt value.length ++ (value ++ t) =
    writeVarBytes value ++ t by simp [writeVarBytes]]
  rw [readVarBytes_writeVarBytes hvlen
    (by unfold MaxPsbtValueLength at hvlen; omega)]
  dsimp only
  rw [happly]

theorem parseItems_separator {σ : Type}
    (ap : σ → Nat → List Nat → List Nat → Except Err σ) (flag : Bool)
    (f : Nat) (t : List Nat) (acc : σ) :
    parseItems ap flag (f + 1) (0 :: t) acc = .ok (acc, t) := by
  unfold parseItems
  rw [getKey_separator]

theorem getKey_serializeKVpair_assoc {key : List Nat} (h1 : key ≠ [])
    (h2 : key.length ≤ MaxPsbtKeyLength) (h3 : key.headI < MaxPsbtKeyValue)
    (t : List Nat) :
    getKey (writeVarInt key.length ++ (key ++ t)) =
      .ok (some (key.headI, key.tail), t) := by
  rw [← List.append_assoc]
  exact getKey_serializeKVpair h1 h2 h3 t

theorem parseItems_step_raw {σ : Type}
    (ap : σ → Nat → List Nat → List Nat → Except Err σ) (flag : Bool)
    {key value : List Nat} {acc acc' : σ}
    (hne : key ≠ []) (hklen : key.length ≤ MaxPsbtKeyLength)
    (hkey : key.headI < MaxPsbtKeyValue)
    (hvlen : value.length ≤ MaxPsbtValueLength)
    (happly : ap acc key.headI key.tail value = .ok acc')
    (f : Nat) (t : List Nat) :
    parseItems ap flag (f + 1) (serializeKVpair key value ++ t) acc =
      parseItems ap flag f t acc' := by
  unfold serializeKVpair
  conv_lhs => unfold parseItems
  simp only [List.append_assoc]
  rw [getKey_serializeKVpair_assoc hne hklen hkey]
  dsimp only
  rw [show writeVarInt value.length ++ (value ++ t) =
    writeVarBytes value ++ t by simp [writeVarBytes]]
  rw [readVarBytes_writeVarBytes hvlen
    (by unfold MaxPsbtValueLength at hvlen; omega)]
  dsimp only
  rw [happly]

/-! ## Well-formedness for serialization round trips

These predicates collect the conditions under which a packet's in-memory
content survives `Packet.Serialize` followed by `NewFromRawBytes`: numeric
fields within their encoded ranges, length-prefixed fields within the
declared maxima, keys of unknown records non-empty single-byte-typed codes
that do not collide with the recognized type codes, signature/derivation
public keys valid and pairwise distinct, and no in-memory witness data in
legacy-encoded transactions. -/

def optCount {α : Type} : Option α → Nat
  | none => 0
  | some _ => 1

def Bip32DerivationWf (d : Bip32Derivation) : Prop :=
  validatePubkey d.PubKey = true ∧ d.PubKey.length + 1 ≤ MaxPsbtKeyLength ∧
    d.MasterKeyFingerprint < 2 ^ 32 ∧ (∀ i ∈ d.Bip32Path, i < 2 ^ 32) ∧
    (SerializeBIP32Derivation d.MasterKeyFingerprint d.Bip32Path).length ≤
      MaxPsbtValueLength

def PartialSigWf (ps : PartialSig) : Prop :=
  ps.checkValid = true ∧ ps.PubKey.length + 1 ≤ MaxPsbtKeyLength ∧
    ps.Signature.length ≤ MaxPsbtValueLength

/-- Well-formedness of an unknown record stored in an input section: its
key must be a non-empty byte string whose leading type byte is none of the
recognized input type codes `0x00`-`0x09`. -/
def InUnknownWf (kv : Unknown) : Prop :=
  kv.Key ≠ [] ∧ kv.Key.headI < 256 ∧ 9 < kv.Key.headI ∧
    kv.Key.length ≤ MaxPsbtKeyLength ∧ kv.Value.length ≤ MaxPsbtValueLength

/-- As `InUnknownWf` for an output section (recognized codes `0x00`-`0x02`). -/
def OutUnknownWf (kv : Unknown) : Prop :=
  kv.Key ≠ [] ∧ kv.Key.headI < 256 ∧ 2 < kv.Key.headI ∧
    kv.Key.length ≤ MaxPsbtKeyLength ∧ kv.Value.length ≤ MaxPsbtValueLength

/-- As `InUnknownWf` for the global section (the only recognized non-initial
code is the xpub type `0x01`). -/
def GlobalUnknownWf (kv : Unknown) : Prop :=
  kv.Key ≠ [] ∧ kv.Key.headI < 256 ∧ kv.Key.headI ≠ XPubType ∧
    kv.Key.length ≤ MaxPsbtKeyLength ∧ kv.Value.length ≤ MaxPsbtValueLength

def XPubWf (x : XPub) : Prop :=
  x.ExtendedKey ≠ [] ∧ x.ExtendedKey.length + 1 ≤ MaxPsbtKeyLength ∧
    x.MasterKeyFingerprint < 2 ^ 32 ∧ (∀ i ∈ x.Bip32Path, i < 2 ^ 32) ∧
    (SerializeBIP32Derivation x.MasterKeyFingerprint x.Bip32Path).length ≤
      MaxPsbtValueLength

instance Bip32DerivationWf_dec (d : Bip32Derivation) :
    Decidable (Bip32DerivationWf d) := by
  unfold Bip32DerivationWf; infer_instance

instance PartialSigWf_dec (ps : PartialSig) : Decidable (PartialSigWf ps) := by
  unfold PartialSigWf; infer_instance

instance InUnknownWf_dec (kv : Unknown) : Decidable (InUnknownWf kv) := by
  unfold InUnknownWf; infer_instance

instance OutUnknownWf_dec (kv : Unknown) : Decidable (OutUnknownWf kv) := by
  unfold OutUnknownWf; infer_instance

instance GlobalUnknownWf_dec (kv : Unknown) : Decidable (GlobalUnknownWf kv) := by
  unfold GlobalUnknownWf; infer_instance

instance XPubWf_dec (x : XPub) : Decidable (XPubWf x) := by
  unfold XPubWf; infer_instance

def InputWf (pin : PInput) : Prop :=
  (∀ tx ∈ pin.NonWitnessUtxo, TxWf tx ∧ TxWitnessFree tx ∧
    (serializeNoWitness tx).length ≤ MaxPsbtValueLength) ∧
  (∀ u ∈ pin.WitnessUtxo, TxOutWf u ∧ (serTxOut u).length ≤ MaxPsbtValueLength) ∧
  (∀ v ∈ pin.RedeemScript, v.length ≤ MaxPsbtValueLength) ∧
  (∀ v ∈ pin.WitnessScript, v.length ≤ MaxPsbtValueLength) ∧
  (∀ d ∈ pin.Bip32Derivation, Bip32DerivationWf d) ∧
  List.Pairwise (fun a b => a.PubKey ≠ b.PubKey) pin.Bip32Derivation ∧
  (∀ ps ∈ pin.PartialSigs, PartialSigWf ps) ∧
  List.Pairwise (fun a b => a.PubKey ≠ b.PubKey) pin.PartialSigs ∧
  (∀ sh ∈ pin.SighashType, sh < 2 ^ 32) ∧
  (∀ v ∈ pin.PorCommitment, v.length ≤ MaxPsbtValueLength) ∧
  (∀ v ∈ pin.FinalScriptSig, v.length ≤ MaxPsbtValueLength) ∧
  (∀ v ∈ pin.FinalScriptWitness, v.length ≤ MaxPsbtValueLength) ∧
  (∀ kv ∈ pin.Unknowns, InUnknownWf kv)

def OutputWf (pout : POutput) : Prop :=
  (∀ v ∈ pout.RedeemScript, v.length ≤ MaxPsbtValueLength) ∧
  (∀ v ∈ pout.WitnessScript, v.length ≤ MaxPsbtValueLength) ∧
  (∀ d ∈ pout.Bip32Derivation, Bip32DerivationWf d) ∧
  List.Pairwise (fun a b => a.PubKey ≠ b.PubKey) pout.Bip32Derivation ∧
  (∀ kv ∈ pout.Unknowns, OutUnknownWf kv)

instance InputWf_dec (pin : PInput) : Decidable (InputWf pin) := by
  unfold InputWf; infer_instance

instance OutputWf_dec (pout : POutput) : Decidable (OutputWf pout) := by
  unfold OutputWf; infer_instance

def PacketWf (p : Packet) : Prop :=
  TxWf p.UnsignedTx ∧
  (serializeNoWitness p.UnsignedTx).length ≤ MaxPsbtValueLength ∧
  p.Inputs.length = p.UnsignedTx.TxIn.length ∧
  p.Outputs.length = p.UnsignedTx.TxOut.length ∧
  (∀ x ∈ p.XPubs, XPubWf x) ∧
  (∀ kv ∈ p.Unknowns, GlobalUnknownWf kv) ∧
  (∀ pin ∈ p.Inputs, InputWf pin) ∧
  (∀ pout ∈ p.Outputs, OutputWf pout)

instance PacketWf_dec (p : Packet) : Decidable (PacketWf p) := by
  unfold PacketWf; infer_instance

/-! ## Input section round trip -/

theorem inputRegion_nonWitnessUtxo {o : Option MsgTx} {acc : PInput}
    (hacc : acc.NonWitnessUtxo = none)
    (hwf : ∀ tx ∈ o, TxWf tx ∧ TxWitnessFree tx ∧
      (serializeNoWitness tx).length ≤ MaxPsbtValueLength)
    (f : Nat) (t : List Nat) :
    parseItems applyInputItem false (optCount o + f)
      (optRegion (fun tx => serializeKVPairWithType 0 []
        (serializeNoWitness tx)) o ++ t) acc =
      parseItems applyInputItem false f t { acc with NonWitnessUtxo := o } := by
  cases o with
  | none =>
    have hid : { acc with NonWitnessUtxo := none } = acc := by
      cases acc; simp_all
    simp [optRegion, optCount, hid]
  | some tx =>
    obtain ⟨hwf1, hwf2, hwf3⟩ := hwf tx (by simp)
    have hrt := deserializeNoWitness_serializeNoWitness hwf1 hwf2 []
    rw [List.append_nil] at hrt
    have happly : applyInputItem acc 0 [] (serializeNoWitness tx) =
        .ok { acc with NonWitnessUtxo := some tx } := by
      simp [applyInputItem, hacc, hrt]
    simp only [optRegion, optCount]
    rw [Nat.add_comm 1 f]
    exact parseItems_step _ _ (by norm_num [MaxPsbtKeyValue])
      (by norm_num [MaxPsbtKeyLength]) hwf3 happly f t

theorem inputRegion_witnessUtxo {o : Option TxOut} {acc : PInput}
    (hacc : acc.WitnessUtxo = none)
    (hwf : ∀ u ∈ o, TxOutWf u ∧ (serTxOut u).length ≤ MaxPsbtValueLength)
    (f : Nat) (t : List Nat) :
    parseItems applyInputItem false (optCount o + f)
      (optRegion (fun u => serializeKVPairWithType 1 [] (serTxOut u)) o ++ t)
      acc =
      parseItems applyInputItem false f t { acc with WitnessUtxo := o } := by
  cases o with
  | none =>
    have hid : { acc with WitnessUtxo := none } = acc := by
      cases acc; simp_all
    simp [optRegion, optCount, hid]
  | some u =>
    obtain ⟨hwf1, hwf2⟩ := hwf u (by simp)
    have hrt := readTxOut_serTxOut hwf1 []
    rw [List.append_nil] at hrt
    have happly : applyInputItem acc 1 [] (serTxOut u) =
        .ok { acc with WitnessUtxo := some u } := by
      simp [applyInputItem, hacc, hrt]
    simp only [optRegion, optCount]
    rw [Nat.add_comm 1 f]
    exact parseItems_step _ _ (by norm_num [MaxPsbtKeyValue])
      (by norm_num [MaxPsbtKeyLength]) hwf2 happly f t

theorem inputRegion_redeemScript {o : Option (List Nat)} {acc : PInput}
    (hacc : acc.RedeemScript = none)
    (hwf : ∀ v ∈ o, v.length ≤ MaxPsbtValueLength) (f : Nat) (t : List Nat) :
    parseItems applyInputItem false (optCount o + f)
      (optRegion (serializeKVPairWithType 4 []) o ++ t) acc =
      parseItems applyInputItem false f t { acc with RedeemScript := o } := by
  cases o with
  | none =>
    have hid : { acc with RedeemScript := none } = acc := by
      cases acc; simp_all
    simp [optRegion, optCount, hid]
  | some v =>
    have happly : applyInputItem acc 4 [] v =
        .ok { acc with RedeemScript := some v } := by
      simp [applyInputItem, hacc]
    simp only [optRegion, optCount]
    rw [Nat.add_comm 1 f]
    exact parseItems_step _ _ (by norm_num [MaxPsbtKeyValue])
      (by norm_num [MaxPsbtKeyLength]) (hwf v (by simp)) happly f t

theorem inputRegion_witnessScript {o : Option (List Nat)} {acc : PInput}
    (hacc : acc.WitnessScript = none)
    (hwf : ∀ v ∈ o, v.length ≤ MaxPsbtValueLength) (f : Nat) (t : List Nat) :
    parseItems applyInputItem false (optCount o + f)
      (optRegion (serializeKVPairWithType 5 []) o ++ t) acc =
      parseItems applyInputItem false f t { acc with WitnessScript := o } := by
  cases o with
  | none =>
    have hid : { acc with WitnessScript := none } = acc := by
      cases acc; simp_all
    simp [optRegion, optCount, hid]
  | some v =>
    have happly : applyInputItem acc 5 [] v =
        .ok { acc with WitnessScript := some v } := by
      simp [applyInputItem, hacc]
    simp only [optRegion, optCount]
    rw [Nat.add_comm 1 f]
    exact parseItems_step _ _ (by norm_num [MaxPsbtKeyValue])
      (by norm_num [MaxPsbtKeyLength]) (hwf v (by simp)) happly f t

theorem inputRegion_sighashType {o : Option Nat} {acc : PInput}
    (hacc : acc.SighashType = none) (hwf : ∀ sh ∈ o, sh < 2 ^ 32)
    (f : Nat) (t : List Nat) :
    parseItems applyInputItem false (optCount o + f)
      (optRegion (fun sh => serializeKVPairWithType 3 [] (toLE 4 sh)) o ++ t)
      acc =
      parseItems applyInputItem false f t { acc with SighashType := o } := by
  cases o with
  | none =>
    have hid : { acc with SighashType := none } = acc := by
      cases acc; simp_all
    simp [optRegion, optCount, hid]
  | some sh =>
    have hsh := hwf sh (by simp)
    have happly : applyInputItem acc 3 [] (toLE 4 sh) =
        .ok { acc with SighashType := some sh } := by
      simp [applyInputItem, hacc, fromLE_toLE (show sh < 256 ^ 4 by norm_num; omega)]
    simp only [optRegion, optCount]
    rw [Nat.add_comm 1 f]
    exact parseItems_step _ _ (by norm_num [MaxPsbtKeyValue])
      (by norm_num [MaxPsbtKeyLength])
      (by simp [MaxPsbtValueLength]) happly f t

theorem inputRegion_porCommitment {o : Option (List Nat)} {acc : PInput}
    (hacc : acc.PorCommitment = none)
    (hwf : ∀ v ∈ o, v.length ≤ MaxPsbtValueLength) (f : Nat) (t : List Nat) :
    parseItems applyInputItem false (optCount o + f)
      (optRegion (serializeKVPairWithType 9 []) o ++ t) acc =
      parseItems applyInputItem false f t { acc with PorCommitment := o } := by
  cases o with
  | none =>
    have hid : { acc with PorCommitment := none } = acc := by
      cases acc; simp_all
    simp [optRegion, optCount, hid]
  | some v =>
    have happly : applyInputItem acc 9 [] v =
        .ok { acc with PorCommitment := some v } := by
      simp [applyInputItem, hacc]
    simp only [optRegion, optCount]
    rw [Nat.add_comm 1 f]
    exact parseItems_step _ _ (by norm_num [MaxPsbtKeyValue])
      (by norm_num [MaxPsbtKeyLength]) (hwf v (by simp)) happly f t

theorem inputRegion_finalScriptSig {o : Option (List Nat)} {acc : PInput}
    (hacc : acc.FinalScriptSig = none)
    (hwf : ∀ v ∈ o, v.length ≤ MaxPsbtValueLength) (f : Nat) (t : List Nat) :
    parseItems applyInputItem false (optCount o + f)
      (optRegion (serializeKVPairWithType 7 []) o ++ t) acc =
      parseItems applyInputItem false f t { acc with FinalScriptSig := o } := by
  cases o with
  | none =>
    have hid : { acc with FinalScriptSig := none } = acc := by
      cases acc; simp_all
    simp [optRegion, optCount, hid]
  | some v =>
    have happly : applyInputItem acc 7 [] v =
        .ok { acc with FinalScriptSig := some v } := by
      simp [applyInputItem, hacc]
    simp only [optRegion, optCount]
    rw [Nat.add_comm 1 f]
    exact parseItems_step _ _ (by norm_num [MaxPsbtKeyValue])
      (by norm_num [MaxPsbtKeyLength]) (hwf v (by simp)) happly f t

theorem inputRegion_finalScriptWitness {o : Option (List Nat)} {acc : PInput}
    (hacc : acc.FinalScriptWitness = none)
    (hwf : ∀ v ∈ o, v.length ≤ MaxPsbtValueLength) (f : Nat) (t : List Nat) :
    parseItems applyInputItem false (optCount o + f)
      (optRegion (serializeKVPairWithType 8 []) o ++ t) acc =
      parseItems applyInputItem false f t
        { acc with FinalScriptWitness := o } := by
  cases o with
  | none =>
    have hid : { acc with FinalScriptWitness := none } = acc := by
      cases acc; simp_all
    simp [optRegion, optCount, hid]
  | some v =>
    have happly : applyInputItem acc 8 [] v =
        .ok { acc with FinalScriptWitness := some v } := by
      simp [applyInputItem, hacc]
    simp only [optRegion, optCount]
    rw [Nat.add_comm 1 f]
    exact parseItems_step _ _ (by norm_num [MaxPsbtKeyValue])
      (by norm_num [MaxPsbtKeyLength]) (hwf v (by simp)) happly f t

theorem inputRegion_bip32 {l : List Bip32Derivation} {acc : PInput}
    (hpair : List.Pairwise (fun a b => a.PubKey ≠ b.PubKey)
      (acc.Bip32Derivation ++ l))
    (hwf : ∀ d ∈ l, Bip32DerivationWf d) (f : Nat) (t : List Nat) :
    parseItems applyInputItem false (l.length + f)
      ((l.map (fun d => serializeKVPairWithType 6 d.PubKey
        (SerializeBIP32Derivation d.MasterKeyFingerprint d.Bip32Path))).flatten
        ++ t) acc =
      parseItems applyInputItem false f t
        { acc with Bip32Derivation := acc.Bip32Derivation ++ l } := by
  induction l generalizing acc with
  | nil =>
    have hid : { acc with Bip32Derivation := acc.Bip32Derivation ++ [] } = acc := by
      cases acc; simp
    simp [hid]
  | cons d rest ih =>
    obtain ⟨hpk, hklen, hfp, hpath, hvlen⟩ := hwf d (by simp)
    have hany : acc.Bip32Derivation.any (fun x => x.PubKey == d.PubKey) = false := by
      rw [List.any_eq_false]
      intro x hx
      have := (List.pairwise_append.mp hpair).2.2 x hx d (by simp)
      simpa using this
    have hrt := ReadBip32Derivation_roundtrip hfp hpath
    have happly : applyInputItem acc 6 d.PubKey
        (SerializeBIP32Derivation d.MasterKeyFingerprint d.Bip32Path) =
        .ok { acc with Bip32Derivation := acc.Bip32Derivation ++ [d] } := by
      simp [applyInputItem, hpk, hany, hrt]
    simp only [List.map_cons, List.flatten_cons, List.length_cons,
      List.append_assoc]
    rw [show rest.length + 1 + f = rest.length + f + 1 by omega]
    rw [parseItems_step _ _ (by norm_num [MaxPsbtKeyValue]) hklen hvlen happly]
    rw [ih (by simpa [List.append_assoc] using hpair)
      (fun x hx => hwf x (by simp [hx]))]
    simp

theorem inputRegion_partialSigs {l : List PartialSig} {acc : PInput}
    (hpair : List.Pairwise (fun a b => a.PubKey ≠ b.PubKey)
      (acc.PartialSigs ++ l))
    (hwf : ∀ ps ∈ l, PartialSigWf ps) (f : Nat) (t : List Nat) :
    parseItems applyInputItem false (l.length + f)
      ((l.map (fun ps => serializeKVPairWithType 2 ps.PubKey
        ps.Signature)).flatten ++ t) acc =
      parseItems applyInputItem false f t
        { acc with PartialSigs := acc.PartialSigs ++ l } := by
  induction l generalizing acc with
  | nil =>
    have hid : { acc with PartialSigs := acc.PartialSigs ++ [] } = acc := by
      cases acc; simp
    simp [hid]
  | cons ps rest ih =>
    obtain ⟨hvalid, hklen, hvlen⟩ := hwf ps (by simp)
    have hany : acc.PartialSigs.any (fun x => x.PubKey == ps.PubKey) = false := by
      rw [List.any_eq_false]
      intro x hx
      have := (List.pairwise_append.mp hpair).2.2 x hx ps (by simp)
      simpa using this
    have happly : applyInputItem acc 2 ps.PubKey ps.Signature =
        .ok { acc with PartialSigs := acc.PartialSigs ++ [ps] } := by
      simp [applyInputItem, hvalid, hany]
    simp only [List.map_cons, List.flatten_cons, List.length_cons,
      List.append_assoc]
    rw [show rest.length + 1 + f = rest.length + f + 1 by omega]
    rw [parseItems_step _ _ (by norm_num [MaxPsbtKeyValue]) hklen hvlen happly]
    rw [ih (by simpa [List.append_assoc] using hpair)
      (fun x hx => hwf x (by simp [hx]))]
    simp

theorem inputRegion_unknowns {l : List Unknown} {acc : PInput}
    (hwf : ∀ kv ∈ l, InUnknownWf kv) (f : Nat) (t : List Nat) :
    parseItems applyInputItem false (l.length + f)
      ((l.map (fun kv => serializeKVpair kv.Key kv.Value)).flatten ++ t) acc =
      parseItems applyInputItem false f t
        { acc with Unknowns := acc.Unknowns ++ l } := by
  induction l generalizing acc with
  | nil =>
    have hid : { acc with Unknowns := acc.Unknowns ++ [] } = acc := by
      cases acc; simp
    simp [hid]
  | cons kv rest ih =>
    obtain ⟨hne, hlt256, hgt9, hklen, hvlen⟩ := hwf kv (by simp)
    have happly : applyInputItem acc kv.Key.headI kv.Key.tail kv.Value =
        .ok { acc with Unknowns := acc.Unknowns ++ [kv] } := by
      have e0 : kv.Key.headI ≠ 0 := by omega
      have e1 : kv.Key.headI ≠ 1 := by omega
      have e2 : kv.Key.headI ≠ 2 := by omega
      have e3 : kv.Key.headI ≠ 3 := by omega
      have e4 : kv.Key.headI ≠ 4 := by omega
      have e5 : kv.Key.headI ≠ 5 := by omega
      have e6 : kv.Key.headI ≠ 6 := by omega
      have e7 : kv.Key.headI ≠ 7 := by omega
      have e8 : kv.Key.headI ≠ 8 := by omega
      have e9 : kv.Key.headI ≠ 9 := by omega
      simp [applyInputItem, e0, e1, e2, e3, e4, e5, e6, e7, e8, e9,
        Nat.mod_eq_of_lt hlt256, headI_cons_tail hne]
    simp only [List.map_cons, List.flatten_cons, List.length_cons,
      List.append_assoc]
    rw [show rest.length + 1 + f = rest.length + f + 1 by omega]
    rw [parseItems_step_raw _ _ hne hklen (by unfold MaxPsbtKeyValue; omega)
      hvlen happly]
    rw [ih (fun x hx => hwf x (by simp [hx]))]
    simp

/-- The number of KV records a `PInput` serializes to, nested to mirror the
region order of `PInput.serialize`. -/
def PInput.recordCount (pin : PInput) (f : Nat) : Nat :=
  optCount pin.NonWitnessUtxo + (optCount pin.WitnessUtxo +
    (optCount pin.RedeemScript + (optCount pin.WitnessScript +
    (pin.Bip32Derivation.length + (pin.PartialSigs.length +
    (optCount pin.SighashType + (optCount pin.PorCommitment +
    (optCount pin.FinalScriptSig + (optCount pin.FinalScriptWitness +
    (pin.Unknowns.length + f))))))))))

theorem parseInput_serialize {pin : PInput} (hwf : InputWf pin)
    (f : Nat) (t : List Nat) :
    parseItems applyInputItem false (pin.recordCount (f + 1))
      (pin.serialize ++ (0 :: t)) PInput.empty = .ok (pin, t) := by
  obtain ⟨h1, h2, h3, h4, h5, h5p, h6, h6p, h7, h8, h9, h10, h11⟩ := hwf
  unfold PInput.recordCount PInput.serialize
  simp only [List.append_assoc]
  rw [inputRegion_nonWitnessUtxo rfl h1]
  rw [inputRegion_witnessUtxo rfl h2]
  rw [inputRegion_redeemScript rfl h3]
  rw [inputRegion_witnessScript rfl h4]
  rw [inputRegion_bip32 (by simpa using h5p) h5]
  rw [inputRegion_partialSigs (by simpa using h6p) h6]
  rw [inputRegion_sighashType rfl h7]
  rw [inputRegion_porCommitment rfl h8]
  rw [inputRegion_finalScriptSig rfl h9]
  rw [inputRegion_finalScriptWitness rfl h10]
  rw [inputRegion_unknowns h11]
  rw [parseItems_separator]
  simp [PInput.empty]

theorem serializeKVpair_length_pos (k v : List Nat) :
    1 ≤ (serializeKVpair k v).length := by
  have h1 : 0 < (writeVarInt k.length).length :=
    List.length_pos.mpr (writeVarInt_ne_nil _)
  unfold serializeKVpair
  simp only [List.length_append]
  omega

theorem optRegion_count_le {α : Type} (chunk : α → List Nat)
    (hc : ∀ v, 1 ≤ (chunk v).length) (o : Option α) :
    optCount o ≤ (optRegion chunk o).length := by
  cases o with
  | none => simp [optCount, optRegion]
  | some v => simpa [optCount, optRegion] using hc v

theorem flatten_count_le {α : Type} (g : α → List Nat)
    (hg : ∀ v, 1 ≤ (g v).length) (l : List α) :
    l.length ≤ ((l.map g).flatten).length := by
  induction l with
  | nil => simp
  | cons a as ih =>
    have := hg a
    simp only [List.map_cons, List.flatten_cons, List.length_append,
      List.length_cons]
    omega

theorem recordCountInput_le (pin : PInput) :
    pin.recordCount 0 ≤ pin.serialize.length := by
  have c1 := optRegion_count_le _
    (fun tx => serializeKVpair_length_pos (0 :: []) (serializeNoWitness tx))
    pin.NonWitnessUtxo
  have c2 := optRegion_count_le _
    (fun u => serializeKVpair_length_pos (1 :: []) (serTxOut u))
    pin.WitnessUtxo
  have c3 := optRegion_count_le (serializeKVPairWithType 4 [])
    (fun v => serializeKVpair_length_pos (4 :: []) v) pin.RedeemScript
  have c4 := optRegion_count_le (serializeKVPairWithType 5 [])
    (fun v => serializeKVpair_length_pos (5 :: []) v) pin.WitnessScript
  have c5 := flatten_count_le _
    (fun d => serializeKVpair_length_pos (6 :: (d : Psbt.Bip32Derivation).PubKey)
      (SerializeBIP32Derivation d.MasterKeyFingerprint d.Bip32Path))
    pin.Bip32Derivation
  have c6 := flatten_count_le _
    (fun ps => serializeKVpair_length_pos (2 :: (ps : PartialSig).PubKey)
      ps.Signature) pin.PartialSigs
  have c7 := optRegion_count_le _
    (fun sh => serializeKVpair_length_pos (3 :: []) (toLE 4 sh))
    pin.SighashType
  have c8 := optRegion_count_le (serializeKVPairWithType 9 [])
    (fun v => serializeKVpair_length_pos (9 :: []) v) pin.PorCommitment
  have c9 := optRegion_count_le (serializeKVPairWithType 7 [])
    (fun v => serializeKVpair_length_pos (7 :: []) v) pin.FinalScriptSig
  have c10 := optRegion_count_le (serializeKVPairWithType 8 [])
    (fun v => serializeKVpair_length_pos (8 :: []) v) pin.FinalScriptWitness
  have c11 := flatten_count_le _
    (fun kv => serializeKVpair_length_pos (kv : Unknown).Key kv.Value)
    pin.Unknowns
  unfold PInput.recordCount PInput.serialize
  simp only [List.length_append]
  unfold serializeKVPairWithType at c1 c2 c3 c4 c5 c6 c7 c8 c9 c10 ⊢
  omega

theorem deserializeInput_serialize {pin : PInput} (hwf : InputWf pin)
    (t : List Nat) :
    PInput.deserialize (pin.serialize ++ (0 :: t)) = .ok (pin, t) := by
  unfold PInput.deserialize
  refine parseItems_mono ?_ (parseInput_serialize hwf 0 t)
  have h1 := recordCountInput_le pin
  have h2 : pin.recordCount (0 + 1) = pin.recordCount 0 + 1 := by
    unfold PInput.recordCount; omega
  simp only [List.length_append, List.length_cons]
  omega

/-! ## Output section round trip -/

theorem outputRegion_redeemScript {o : Option (List Nat)} {acc : POutput}
    (hacc : acc.RedeemScript = none)
    (hwf : ∀ v ∈ o, v.length ≤ MaxPsbtValueLength) (f : Nat) (t : List Nat) :
    parseItems applyOutputItem false (optCount o + f)
      (optRegion (serializeKVPairWithType 0 []) o ++ t) acc =
      parseItems applyOutputItem false f t { acc with RedeemScript := o } := by
  cases o with
  | none =>
    have hid : { acc with RedeemScript := none } = acc := by
      cases acc; simp_all
    simp [optRegion, optCount, hid]
  | some v =>
    have happly : applyOutputItem acc 0 [] v =
        .ok { acc with RedeemScript := some v } := by
      simp [applyOutputItem, hacc]
    simp only [optRegion, optCount]
    rw [Nat.add_comm 1 f]
    exact parseItems_step _ _ (by norm_num [MaxPsbtKeyValue])
      (by norm_num [MaxPsbtKeyLength]) (hwf v (by simp)) happly f t

theorem outputRegion_witnessScript {o : Option (List Nat)} {acc : POutput}
    (hacc : acc.WitnessScript = none)
    (hwf : ∀ v ∈ o, v.length ≤ MaxPsbtValueLength) (f : Nat) (t : List Nat) :
    parseItems applyOutputItem false (optCount o + f)
      (optRegion (serializeKVPairWithType 1 []) o ++ t) acc =
      parseItems applyOutputItem false f t { acc with WitnessScript := o } := by
  cases o with
  | none =>
    have hid : { acc with WitnessScript := none } = acc := by
      cases acc; simp_all
    simp [optRegion, optCount, hid]
  | some v =>
    have happly : applyOutputItem acc 1 [] v =
        .ok { acc with WitnessScript := some v } := by
      simp [applyOutputItem, hacc]
    simp only [optRegion, optCount]
    rw [Nat.add_comm 1 f]
    exact parseItems_step _ _ (by norm_num [MaxPsbtKeyValue])
      (by norm_num [MaxPsbtKeyLength]) (hwf v (by simp)) happly f t

theorem outputRegion_bip32 {l : List Bip32Derivation} {acc : POutput}
    (hpair : List.Pairwise (fun a b => a.PubKey ≠ b.PubKey)
      (acc.Bip32Derivation ++ l))
    (hwf : ∀ d ∈ l, Bip32DerivationWf d) (f : Nat) (t : List Nat) :
    parseItems applyOutputItem false (l.length + f)
      ((l.map (fun d => serializeKVPairWithType 2 d.PubKey
        (SerializeBIP32Derivation d.MasterKeyFingerprint d.Bip32Path))).flatten
        ++ t) acc =
      parseItems applyOutputItem false f t
        { acc with Bip32Derivation := acc.Bip32Derivation ++ l } := by
  induction l generalizing acc with
  | nil =>
    have hid : { acc with Bip32Derivation := acc.Bip32Derivation ++ [] } = acc := by
      cases acc; simp
    simp [hid]
  | cons d rest ih =>
    obtain ⟨hpk, hklen, hfp, hpath, hvlen⟩ := hwf d (by simp)
    have hany : acc.Bip32Derivation.any (fun x => x.PubKey == d.PubKey) = false := by
      rw [List.any_eq_false]
      intro x hx
      have := (List.pairwise_append.mp hpair).2.2 x hx d (by simp)
      simpa using this
    have hrt := ReadBip32Derivation_roundtrip hfp hpath
    have happly : applyOutputItem acc 2 d.PubKey
        (SerializeBIP32Derivation d.MasterKeyFingerprint d.Bip32Path) =
        .ok { acc with Bip32Derivation := acc.Bip32Derivation ++ [d] } := by
      simp [applyOutputItem, hpk, hany, hrt]
    simp only [List.map_cons, List.flatten_cons, List.length_cons,
      List.append_assoc]
    rw [show rest.length + 1 + f = rest.length + f + 1 by omega]
    rw [parseItems_step _ _ (by norm_num [MaxPsbtKeyValue]) hklen hvlen happly]
    rw [ih (by simpa [List.append_assoc] using hpair)
      (fun x hx => hwf x (by simp [hx]))]
    simp

theorem outputRegion_unknowns {l : List Unknown} {acc : POutput}
    (hwf : ∀ kv ∈ l, OutUnknownWf kv) (f : Nat) (t : List Nat) :
    parseItems applyOutputItem false (l.length + f)
      ((l.map (fun kv => serializeKVpair kv.Key kv.Value)).flatten ++ t) acc =
      parseItems applyOutputItem false f t
        { acc with Unknowns := acc.Unknowns ++ l } := by
  induction l generalizing acc with
  | nil =>
    have hid : { acc with Unknowns := acc.Unknowns ++ [] } = acc := by
      cases acc; simp
    simp [hid]
  | cons kv rest ih =>
    obtain ⟨hne, hlt256, hgt2, hklen, hvlen⟩ := hwf kv (by simp)
    have happly : applyOutputItem acc kv.Key.headI kv.Key.tail kv.Value =
        .ok { acc with Unknowns := acc.Unknowns ++ [kv] } := by
      have e0 : kv.Key.headI ≠ 0 := by omega
      have e1 : kv.Key.headI ≠ 1 := by omega
      have e2 : kv.Key.headI ≠ 2 := by omega
      simp [applyOutputItem, e0, e1, e2, Nat.mod_eq_of_lt hlt256,
        headI_cons_tail hne]
    simp only [List.map_cons, List.flatten_cons, List.length_cons,
      List.append_assoc]
    rw [show rest.length + 1 + f = rest.length + f + 1 by omega]
    rw [parseItems_step_raw _ _ hne hklen (by unfold MaxPsbtKeyValue; omega)
      hvlen happly]
    rw [ih (fun x hx => hwf x (by simp [hx]))]
    simp

/-- The number of KV records a `POutput` serializes to. -/
def POutput.recordCount (pout : POutput) (f : Nat) : Nat :=
  optCount pout.RedeemScript + (optCount pout.WitnessScript +
    (pout.Bip32Derivation.length + (pout.Unknowns.length + f)))

theorem parseOutput_serialize {pout : POutput} (hwf : OutputWf pout)
    (f : Nat) (t : List Nat) :
    parseItems applyOutputItem false (pout.recordCount (f + 1))
      (pout.serialize ++ (0 :: t)) POutput.empty = .ok (pout, t) := by
  obtain ⟨h1, h2, h3, h3p, h4⟩ := hwf
  unfold POutput.recordCount POutput.serialize
  simp only [List.append_assoc]
  rw [outputRegion_redeemScript rfl h1]
  rw [outputRegion_witnessScript rfl h2]
  rw [outputRegion_bip32 (by simpa using h3p) h3]
  rw [outputRegion_unknowns h4]
  rw [parseItems_separator]
  simp [POutput.empty]

theorem recordCountOutput_le (pout : POutput) :
    pout.recordCount 0 ≤ pout.serialize.length := by
  have c1 := optRegion_count_le (serializeKVPairWithType 0 [])
    (fun v => serializeKVpair_length_pos (0 :: []) v) pout.RedeemScript
  have c2 := optRegion_count_le (serializeKVPairWithType 1 [])
    (fun v => serializeKVpair_length_pos (1 :: []) v) pout.WitnessScript
  have c3 := flatten_count_le _
    (fun d => serializeKVpair_length_pos (2 :: (d : Psbt.Bip32Derivation).PubKey)
      (SerializeBIP32Derivation d.MasterKeyFingerprint d.Bip32Path))
    pout.Bip32Derivation
  have c4 := flatten_count_le _
    (fun kv => serializeKVpair_length_pos (kv : Unknown).Key kv.Value)
    pout.Unknowns
  unfold POutput.recordCount POutput.serialize
  simp only [List.length_append]
  unfold serializeKVPairWithType at c1 c2 c3 ⊢
  omega

theorem deserializeOutput_serialize {pout : POutput} (hwf : OutputWf pout)
    (t : List Nat) :
    POutput.deserialize (pout.serialize ++ (0 :: t)) = .ok (pout, t) := by
  unfold POutput.deserialize
  refine parseItems_mono ?_ (parseOutput_serialize hwf 0 t)
  have h1 := recordCountOutput_le pout
  have h2 : pout.recordCount (0 + 1) = pout.recordCount 0 + 1 := by
    unfold POutput.recordCount; omega
  simp only [List.length_append, List.length_cons]
  omega

/-! ## Global section round trip -/

theorem globalRegion_xpubs {l : List XPub} {accX : List XPub}
    {accU : List Unknown} (hne : ∀ x ∈ accX, x.ExtendedKey ≠ [])
    (hwf : ∀ x ∈ l, XPubWf x) (f : Nat) (t : List Nat) :
    parseItems (applyGlobalItem []) true (l.length + f)
      ((l.map (fun xPub => serializeKVPairWithType XPubType xPub.ExtendedKey
        (SerializeBIP32Derivation xPub.MasterKeyFingerprint
          xPub.Bip32Path))).flatten ++ t) (accX, accU) =
      parseItems (applyGlobalItem []) true f t (accX ++ l, accU) := by
  induction l generalizing accX with
  | nil => simp
  | cons x rest ih =>
    obtain ⟨hxne, hklen, hfp, hpath, hvlen⟩ := hwf x (by simp)
    have hany : accX.any (fun y => y.ExtendedKey == ([] : List Nat)) = false := by
      rw [List.any_eq_false]
      intro y hy
      simpa using hne y hy
    have happly : applyGlobalItem [] (accX, accU) XPubType x.ExtendedKey
        (SerializeBIP32Derivation x.MasterKeyFingerprint x.Bip32Path) =
        .ok (accX ++ [x], accU) := by
      simp [applyGlobalItem, ReadXPub, ReadBip32Derivation_roundtrip hfp hpath]
      exact hne
    simp only [List.map_cons, List.flatten_cons, List.length_cons,
      List.append_assoc]
    rw [show rest.length + 1 + f = rest.length + f + 1 by omega]
    rw [parseItems_step _ _ (by norm_num [MaxPsbtKeyValue, XPubType]) hklen
      hvlen happly]
    have hne2 : ∀ y ∈ accX ++ [x], y.ExtendedKey ≠ [] := by
      intro y hy
      rcases List.mem_append.mp hy with h | h
      · exact hne y h
      · rw [List.mem_singleton.mp h]
        exact hxne
    rw [ih hne2 (fun y hy => hwf y (by simp [hy]))]
    simp

theorem globalRegion_unknowns {l : List Unknown} {accX : List XPub}
    {accU : List Unknown} (hwf : ∀ kv ∈ l, GlobalUnknownWf kv)
    (f : Nat) (t : List Nat) :
    parseItems (applyGlobalItem []) true (l.length + f)
      ((l.map (fun kv => serializeKVpair kv.Key kv.Value)).flatten ++ t)
      (accX, accU) =
      parseItems (applyGlobalItem []) true f t (accX, accU ++ l) := by
  induction l generalizing accU with
  | nil => simp
  | cons kv rest ih =>
    obtain ⟨hne, hlt256, hnx, hklen, hvlen⟩ := hwf kv (by simp)
    have happly : applyGlobalItem [] (accX, accU) kv.Key.headI kv.Key.tail
        kv.Value = .ok (accX, accU ++ [kv]) := by
      simp [applyGlobalItem, hnx, Nat.mod_eq_of_lt hlt256, headI_cons_tail hne]
    simp only [List.map_cons, List.flatten_cons, List.length_cons,
      List.append_assoc]
    rw [show rest.length + 1 + f = rest.length + f + 1 by omega]
    rw [parseItems_step_raw _ _ hne hklen (by unfold MaxPsbtKeyValue; omega)
      hvlen happly]
    rw [ih (fun y hy => hwf y (by simp [hy]))]
    simp

/-- Reading back the mandatory first global record written by
`Packet.Serialize`. -/
theorem getKey_headRecord (v t : List Nat) :
    getKey (serializeKVPairWithType UnsignedTxType [] v ++ t) =
      .ok (some (UnsignedTxType, []), writeVarBytes v ++ t) := by
  unfold serializeKVPairWithType serializeKVpair writeVarBytes
  simp only [List.append_assoc, List.cons_append, List.nil_append,
    List.length_cons, List.length_nil]
  have h := @getKey_typed UnsignedTxType []
    (by norm_num [MaxPsbtKeyLength]) (by norm_num [MaxPsbtKeyValue, UnsignedTxType])
    (writeVarInt v.length ++ (v ++ t))
  simpa using h

theorem validateUnsignedTX_eq_true {tx : MsgTx} :
    validateUnsignedTX tx = true ↔
      ∀ tin ∈ tx.TxIn, tin.SignatureScript = [] ∧ tin.Witness = [] := by
  unfold validateUnsignedTX
  rw [List.all_eq_true]
  constructor
  · intro h tin htin
    have := h tin htin
    simp only [Bool.and_eq_true, List.isEmpty_iff] at this
    exact this
  · intro h tin htin
    have := h tin htin
    simp [List.isEmpty_iff, this.1, this.2]

/-- The parse/serialize round trip: a sanity-checked, serialization
well-formed packet is recovered exactly by the parser. -/
theorem NewFromRawBytes_Serialize {p : Packet} (hwf : PacketWf p)
    (hs : p.SanityCheck = .ok ()) :
    NewFromRawBytes (Packet.Serialize p) = .ok p := by
  obtain ⟨htx, htxlen, hinlen, houtlen, hxp, hgu, hin, hout⟩ := hwf
  obtain ⟨tx, ins, outs, xpubs, unks⟩ := p
  simp only at htx htxlen hinlen houtlen hxp hgu hin hout
  have hv : validateUnsignedTX tx = true := by
    unfold Packet.SanityCheck at hs
    by_contra hcon
    simp only [Bool.not_eq_true] at hcon
    simp [hcon] at hs
  have hwfree : TxWitnessFree tx := by
    intro tin htin
    exact ((validateUnsignedTX_eq_true.mp hv) tin htin).2
  have hrt := deserializeNoWitness_serializeNoWitness htx hwfree []
  rw [List.append_nil] at hrt
  unfold Packet.Serialize NewFromRawBytes
  simp only [List.append_assoc, List.singleton_append, List.cons_append,
    List.nil_append]
  rw [readBytes_append_of_length (by rfl)]
  dsimp only
  rw [if_neg (by simp)]
  rw [getKey_headRecord]
  dsimp only
  rw [if_neg (by simp)]
  rw [readVarBytes_writeVarBytes htxlen
    (by unfold MaxPsbtValueLength at htxlen; omega)]
  dsimp only
  rw [hrt]
  dsimp only
  rw [if_neg (by simp [hv])]
  have hglob : parseItems (applyGlobalItem []) true
      (xpubs.length + (unks.length + (0 + 1)))
      ((xpubs.map (fun xPub => serializeKVPairWithType XPubType
        xPub.ExtendedKey (SerializeBIP32Derivation xPub.MasterKeyFingerprint
          xPub.Bip32Path))).flatten ++
        ((unks.map (fun kv => serializeKVpair kv.Key kv.Value)).flatten ++
          (0 :: ((ins.map (fun pInput => pInput.serialize ++ [0])).flatten ++
            (outs.map (fun pOutput => pOutput.serialize ++ [0])).flatten))))
      ([], []) = .ok ((xpubs, unks),
        (ins.map (fun pInput => pInput.serialize ++ [0])).flatten ++
          (outs.map (fun pOutput => pOutput.serialize ++ [0])).flatten) := by
    rw [globalRegion_xpubs (by simp) hxp]
    rw [globalRegion_unknowns hgu]
    rw [parseItems_separator]
    simp
  rw [parseItems_mono ?hle hglob]
  case hle =>
    have c1 := flatten_count_le _
      (fun x => serializeKVpair_length_pos (XPubType :: (x : XPub).ExtendedKey)
        (SerializeBIP32Derivation x.MasterKeyFingerprint x.Bip32Path)) xpubs
    have c2 := flatten_count_le _
      (fun kv => serializeKVpair_length_pos (kv : Unknown).Key kv.Value) unks
    unfold serializeKVPairWithType at c1 ⊢
    simp only [List.length_append, List.length_cons]
    omega
  dsimp only
  rw [← hinlen]
  rw [readList_flatten (fun pin hpin t => by
    rw [List.append_assoc]
    simpa using deserializeInput_serialize (hin pin hpin) t)]
  dsimp only
  rw [← houtlen]
  rw [show (outs.map (fun pOutput => POutput.serialize pOutput ++ [0])).flatten =
    (outs.map (fun pOutput => POutput.serialize pOutput ++ [0])).flatten ++ []
    from (List.append_nil _).symm]
  rw [readList_flatten (fun pout hpout t => by
    rw [List.append_assoc]
    simpa using deserializeOutput_serialize (hout pout hpout) t)]
  dsimp only
  rw [hs]

/-! ## Fee computation helpers -/

/-- An input "carries UTXO information" usable for fee computation: its
UTXO value resolves (spec §4.6). -/
def hasUtxoInfo (pin : PInput) (tin : TxIn) : Bool :=
  match utxoValueOf pin tin with
  | .ok _ => true
  | .error _ => false

/-- The resolved UTXO value of an input (`0` when unresolvable; only used
under a `hasUtxoInfo` hypothesis). -/
def inputAmount (pin : PInput) (tin : TxIn) : Int :=
  match utxoValueOf pin tin with
  | .ok v => v
  | .error _ => 0

theorem utxoValueOf_of_has {pin : PInput} {tin : TxIn}
    (h : hasUtxoInfo pin tin = true) :
    utxoValueOf pin tin = .ok (inputAmount pin tin) := by
  unfold hasUtxoInfo at h
  unfold inputAmount
  cases hv : utxoValueOf pin tin with
  | ok v => rfl
  | error e => rw [hv] at h; exact absurd h (by simp)

theorem utxoValueOf_of_none {pin : PInput} {tin : TxIn}
    (h1 : pin.WitnessUtxo = none) (h2 : pin.NonWitnessUtxo = none) :
    utxoValueOf pin tin = .error .missingUtxo := by
  unfold utxoValueOf
  rw [h1, h2]

theorem sumUtxoGo_all {l : List (PInput × TxIn)}
    (h : ∀ pr ∈ l, hasUtxoInfo pr.1 pr.2 = true) :
    sumUtxoGo l = .ok ((l.map (fun pr => inputAmount pr.1 pr.2)).sum) := by
  induction l with
  | nil => simp [sumUtxoGo]
  | cons pr rest ih =>
    obtain ⟨pin, tin⟩ := pr
    unfold sumUtxoGo
    rw [utxoValueOf_of_has (h (pin, tin) (by simp))]
    rw [ih (fun x hx => h x (by simp [hx]))]
    simp

theorem sumUtxoGo_missing {l : List (PInput × TxIn)}
    (hdis : ∀ pr ∈ l, hasUtxoInfo pr.1 pr.2 = true ∨
      (pr.1.WitnessUtxo = none ∧ pr.1.NonWitnessUtxo = none))
    (hex : ∃ pr ∈ l, pr.1.WitnessUtxo = none ∧ pr.1.NonWitnessUtxo = none) :
    sumUtxoGo l = .error .missingUtxo := by
  induction l with
  | nil => simp at hex
  | cons pr rest ih =>
    obtain ⟨pin, tin⟩ := pr
    rcases hdis (pin, tin) (by simp) with hh | ⟨hn1, hn2⟩
    · unfold sumUtxoGo
      rw [utxoValueOf_of_has hh]
      have hex2 : ∃ pr ∈ rest, pr.1.WitnessUtxo = none ∧
          pr.1.NonWitnessUtxo = none := by
        obtain ⟨q, hq, hqn⟩ := hex
        rcases List.mem_cons.mp hq with rfl | hq2
        · exfalso
          unfold hasUtxoInfo at hh
          rw [utxoValueOf_of_none hqn.1 hqn.2] at hh
          simp at hh
        · exact ⟨q, hq2, hqn⟩
      rw [ih (fun x hx => hdis x (by simp [hx])) hex2]
    · unfold sumUtxoGo
      rw [utxoValueOf_of_none hn1 hn2]

theorem wrapInt64_eq_self {v : Int} (h1 : -(2 ^ 63) ≤ v) (h2 : v < 2 ^ 63) :
    wrapInt64 v = v := by
  have h64 : (2 : Int) ^ 64 = 18446744073709551616 := by norm_num
  have h63 : (2 : Int) ^ 63 = 9223372036854775808 := by norm_num
  rw [h63] at h1 h2
  unfold wrapInt64
  rw [h64, h63]
  split <;> omega

theorem txOutValues_sum_nonneg {l : List TxOut}
    (h : ∀ o ∈ l, 0 ≤ o.Value) : 0 ≤ (l.map TxOut.Value).sum := by
  induction l with
  | nil => simp
  | cons o rest ih =>
    simp only [List.map_cons, List.sum_cons]
    have h1 := h o (by simp)
    have h2 := ih (fun x hx => h x (by simp [hx]))
    omega

/-- Go's wrapping `int64` accumulation of the output values agrees with the
mathematical sum as long as the values are non-negative and the total stays
below `2^63` (every partial sum is then within the `int64` range). -/
theorem outFoldl_eq_sum (l : List TxOut) (acc : Int) (hacc : 0 ≤ acc)
    (hnn : ∀ o ∈ l, 0 ≤ o.Value)
    (hlt : acc + (l.map TxOut.Value).sum < 2 ^ 63) :
    l.foldl (fun sumOutputs txOut => wrapInt64 (sumOutputs + txOut.Value))
      acc = acc + (l.map TxOut.Value).sum := by
  induction l generalizing acc with
  | nil => simp
  | cons o rest ih =>
    simp only [List.foldl_cons, List.map_cons, List.sum_cons]
    have hov : 0 ≤ o.Value := hnn o (by simp)
    have hrest : 0 ≤ ((rest.map TxOut.Value).sum) :=
      txOutValues_sum_nonneg (fun x hx => hnn x (by simp [hx]))
    simp only [List.map_cons, List.sum_cons] at hlt
    have hw : wrapInt64 (acc + o.Value) = acc + o.Value :=
      wrapInt64_eq_self (by omega) (by omega)
    rw [hw, ih (acc + o.Value) (by omega)
      (fun x hx => hnn x (by simp [hx])) (by omega)]
    omega

/-! ## Concrete packets and streams used by the claim theorems -/

/-- A sanity-checked packet with an empty-keyed global unknown: serializing
writes a zero key length, which the parser reads as the end-of-section
separator, so the unknown is lost on re-parse. -/
def c1cexPacket : Packet := ⟨⟨2, [], [], 0⟩, [], [], [], [⟨[], []⟩]⟩

def c1wTx : MsgTx :=
  ⟨2, [⟨⟨List.replicate 32 0, 0⟩, [], [], 4294967295⟩], [⟨99000, [0x51]⟩], 0⟩

def c1wInput : PInput :=
  ⟨none, some ⟨100000, [0x51]⟩, [⟨2 :: List.replicate 32 1, [0x30, 1, 1]⟩],
    some 1, none, none, [], none, none, none, [⟨[0xfc], [7]⟩]⟩

def c1wPacket : Packet :=
  ⟨c1wTx, [c1wInput], [⟨none, none, [], []⟩], [⟨[4, 136], 5, [2147483648]⟩],
    [⟨[0xfa], [1, 2]⟩]⟩

def c2tx : MsgTx := ⟨2, [], [], 0⟩

/-- A stream whose global section carries two xpub records with the same
(non-empty) extended-key bytes. -/
def c2stream : List Nat :=
  psbtMagic ++ serializeKVPairWithType UnsignedTxType []
      (serializeNoWitness c2tx)
    ++ serializeKVPairWithType XPubType [0x42] [0, 0, 0, 0]
    ++ serializeKVPairWithType XPubType [0x42] [0, 0, 0, 0]
    ++ [0]

def c2packet : Packet := ⟨c2tx, [], [], [⟨[0x42], 0, []⟩, ⟨[0x42], 0, []⟩], []⟩

/-- A packet whose embedded transaction carries a script-sig: the sanity
validator fails on it. -/
def c3Packet : Packet :=
  ⟨⟨2, [⟨⟨List.replicate 32 0, 0⟩, [0x51], [], 0⟩], [], 0⟩, [PInput.empty],
    [], [], []⟩

/-- A packet whose transaction is unsigned but whose single input is
finalized while still carrying a redeem script (not sane). -/
def c3InsanePacket : Packet :=
  ⟨⟨2, [⟨⟨List.replicate 32 0, 0⟩, [], [], 0⟩], [], 0⟩,
    [⟨none, none, [], none, some [0x51], none, [], some [0x51], none, none,
      []⟩], [], [], []⟩

def c4tx : MsgTx :=
  ⟨2, [⟨⟨List.replicate 32 0, 0⟩, [0x51], [], 4294967295⟩], [⟨5, [0x51]⟩], 0⟩

def c4stream : List Nat :=
  psbtMagic ++ serializeKVPairWithType UnsignedTxType []
    (serializeNoWitness c4tx)

def c5FinalInput : PInput :=
  ⟨none, none, [], none, none, none, [], some [0x51], none, none, []⟩

def c5Packet : Packet :=
  ⟨⟨2, [⟨⟨List.replicate 32 0, 0⟩, [], [], 0⟩], [], 0⟩, [c5FinalInput], [],
    [], []⟩

def c6tx : MsgTx :=
  ⟨2, [⟨⟨List.replicate 32 0, 0⟩, [], [], 0⟩,
    ⟨⟨List.replicate 32 0, 1⟩, [], [], 0⟩], [⟨150000, [0x51]⟩], 0⟩

def c6Input : PInput :=
  ⟨none, some ⟨100000, [0x51]⟩, [], none, none, none, [], none, none, none, []⟩

def c6Packet : Packet := ⟨c6tx, [c6Input, c6Input], [POutput.empty], [], []⟩

/-- As `c6Packet` but with the second input's UTXO data removed. -/
def c6MissingPacket : Packet :=
  ⟨c6tx, [c6Input, PInput.empty], [POutput.empty], [], []⟩

def c6cexTx : MsgTx :=
  ⟨2, [⟨⟨List.replicate 32 0, 0⟩, [], [], 0⟩,
    ⟨⟨List.replicate 32 0, 1⟩, [], [], 0⟩], [], 0⟩

/-- An input holding a witness UTXO worth `2^62` satoshi — a legal Go
`int64` value. -/
def c6cexInput : PInput :=
  ⟨none, some ⟨4611686018427387904, [0x51]⟩, [], none, none, none, [], none,
    none, none, []⟩

/-- A packet with two `2^62`-valued inputs and no outputs: the inputs sum
to `2^63`, which overflows the `int64` fee. -/
def c6cexPacket : Packet := ⟨c6cexTx, [c6cexInput, c6cexInput], [], [], []⟩

def c8stream : List Nat := psbtMagic ++ [2, 1, 0]

def c9tx : MsgTx :=
  ⟨2, [⟨⟨List.replicate 32 0, 0⟩, [], [], 0⟩,
    ⟨⟨List.replicate 32 0, 1⟩, [], [], 0⟩], [⟨7, [0x51]⟩], 0⟩

def c9packet : Packet :=
  ⟨c9tx, List.replicate c9tx.TxIn.length PInput.empty,
    List.replicate c9tx.TxOut.length POutput.empty, [], []⟩

/-! ## The claims -/

/-- C1 (counterexample): the round-trip law fails as stated — this packet
passes `SanityCheck`, yet serializing and re-parsing it succeeds with a
structurally different packet (its empty-keyed global unknown is lost,
because `serializeKVpair` writes its zero key length, which `getKey` reads
as the end-of-section separator). -/
theorem C1_counterexample :
    Packet.SanityCheck c1cexPacket = .ok () ∧
    NewFromRawBytes (Packet.Serialize c1cexPacket) =
      .ok ⟨⟨2, [], [], 0⟩, [], [], [], []⟩ ∧
    (⟨⟨2, [], [], 0⟩, [], [], [], []⟩ : Packet) ≠ c1cexPacket := by
  refine ⟨by decide, by decide, by decide⟩

/-- C1 (amended): for every Packet that passes `SanityCheck` **and** is
serialization well-formed (`PacketWf`: section lengths within the declared
maxima, numeric fields within their encoded ranges, unknown keys non-empty
single-byte-typed codes not colliding with recognized type codes,
signature/derivation keys valid and pairwise distinct, xpub keys non-empty,
input/output list lengths matching the transaction, and no in-memory
witness data in legacy-encoded transactions), `Packet.Serialize` followed
by `NewFromRawBytes` succeeds and returns a structurally equal packet. -/
theorem C1_parse_serialize_roundtrip (p : Packet) (hwf : PacketWf p)
    (hs : p.SanityCheck = .ok ()) :
    NewFromRawBytes (Packet.Serialize p) = .ok p :=
  NewFromRawBytes_Serialize hwf hs

theorem C1_parse_serialize_roundtrip_witness :
    PacketWf c1wPacket ∧ Packet.SanityCheck c1wPacket = .ok () ∧
    NewFromRawBytes (Packet.Serialize c1wPacket) = .ok c1wPacket :=
  ⟨by decide, by decide,
    C1_parse_serialize_roundtrip c1wPacket (by decide) (by decide)⟩

/-- C2: evaluating `NewFromRawBytes` at a stream whose global section holds
two xpub records with equal non-empty extended-key bytes: the parse
*succeeds* and returns both copies, instead of failing with the
duplicate-key error.  The duplicate check of `psbt.go` line 271 compares
each stored xpub's key against the shadowed outer `keyData` (always `nil`
at that point, by line 216) instead of the loop's `keydata`, so it can
never fire for non-empty keys. -/
theorem C2_duplicate_xpubs_accepted :
    NewFromRawBytes c2stream = .ok c2packet ∧
    c2packet.XPubs.length = 2 ∧
    (∀ x ∈ c2packet.XPubs, x.ExtendedKey = [0x42]) := by
  refine ⟨by decide, by decide, by decide⟩

/-- C3 (counterexample): a packet on which the sanity validator fails
because the embedded transaction is signed — `SanityCheck` returns the
invalid-unsigned-transaction error `ErrInvalidRawTxSigned`, not the
invalid-format error the claim requires. -/
theorem C3_counterexample :
    validateUnsignedTX c3Packet.UnsignedTx = false ∧
    Packet.SanityCheck c3Packet = .error .invalidRawTxSigned ∧
    Err.invalidRawTxSigned ≠ Err.invalidFormat := by
  refine ⟨by decide, by decide, by decide⟩

/-- C3 (amended): `SanityCheck` distinguishes the two failure modes — a
signed embedded transaction yields `ErrInvalidRawTxSigned`, and (when the
transaction is unsigned) an input failing `IsSane` yields the
invalid-format error `ErrInvalidPsbtFormat`. -/
theorem C3_sanityCheck_error_kinds (p : Packet) :
    (validateUnsignedTX p.UnsignedTx = false →
      p.SanityCheck = .error .invalidRawTxSigned) ∧
    (validateUnsignedTX p.UnsignedTx = true →
      (∃ pin ∈ p.Inputs, pin.IsSane = false) →
      p.SanityCheck = .error .invalidFormat) := by
  constructor
  · intro h
    unfold Packet.SanityCheck
    simp [h]
  · intro h hex
    unfold Packet.SanityCheck
    rw [if_neg (by simp [h])]
    rw [if_pos]
    rw [List.any_eq_true]
    obtain ⟨pin, hmem, hsane⟩ := hex
    exact ⟨pin, hmem, by simp [hsane]⟩

theorem C3_sanityCheck_error_kinds_witness :
    (validateUnsignedTX c3Packet.UnsignedTx = false ∧
      Packet.SanityCheck c3Packet = .error .invalidRawTxSigned) ∧
    (validateUnsignedTX c3InsanePacket.UnsignedTx = true ∧
      Packet.SanityCheck c3InsanePacket = .error .invalidFormat) :=
  ⟨⟨by decide, (C3_sanityCheck_error_kinds c3Packet).1 (by decide)⟩,
   ⟨by decide, (C3_sanityCheck_error_kinds c3InsanePacket).2 (by decide)
     (by decide)⟩⟩

/-- C4: a byte stream with correct magic whose mandatory first global
record's value decodes to a transaction with a signed input (non-empty
script-sig; with the legacy decoding the witness is always empty) is
rejected by `NewFromRawBytes` with `ErrInvalidRawTxSigned` and no packet is
returned. -/
theorem C4_parse_rejects_signed_tx (s r1 r2 r3 value rest : List Nat)
    (tx : MsgTx)
    (h1 : readBytes psbtMagicLength s = .ok (psbtMagic, r1))
    (h2 : getKey r1 = .ok (some (UnsignedTxType, ([] : List Nat)), r2))
    (h3 : readVarBytes MaxPsbtValueLength r2 = .ok (value, r3))
    (h4 : deserializeNoWitness value = .ok (tx, rest))
    (h5 : validateUnsignedTX tx = false) :
    NewFromRawBytes s = .error .invalidRawTxSigned := by
  unfold NewFromRawBytes
  rw [h1]
  dsimp only
  rw [if_neg (by simp)]
  rw [h2]
  dsimp only
  rw [if_neg (by simp)]
  rw [h3]
  dsimp only
  rw [h4]
  dsimp only
  rw [if_pos (by simp [h5])]

theorem C4_parse_rejects_signed_tx_witness :
    validateUnsignedTX c4tx = false ∧
    NewFromRawBytes c4stream = .error .invalidRawTxSigned :=
  ⟨by decide,
    C4_parse_rejects_signed_tx c4stream
      (serializeKVPairWithType UnsignedTxType [] (serializeNoWitness c4tx))
      (writeVarBytes (serializeNoWitness c4tx)) [] (serializeNoWitness c4tx)
      [] c4tx (by decide) (by decide) (by decide) (by decide) (by decide)⟩

/-- C5: under the packet invariant that `Inputs` matches the transaction's
input count, `IsComplete` is true exactly when every input carries a final
script-sig or final witness, and false whenever some input lacks both. -/
theorem C5_isComplete_iff_all_final (p : Packet)
    (hlen : p.Inputs.length = p.UnsignedTx.TxIn.length) :
    p.IsComplete = true ↔ ∀ pin ∈ p.Inputs, pin.isFinal = true := by
  unfold Packet.IsComplete
  rw [List.all_eq_true]
  constructor
  · intro h pin hpin
    obtain ⟨i, hilt, hget⟩ := List.getElem_of_mem hpin
    have h2 := h i (List.mem_range.mpr (by omega))
    unfold isFinalized at h2
    rw [List.get?_eq_getElem?, List.getElem?_eq_getElem hilt, hget] at h2
    exact h2
  · intro h i hi
    rw [List.mem_range] at hi
    unfold isFinalized
    have hilt : i < p.Inputs.length := by omega
    rw [List.get?_eq_getElem?, List.getElem?_eq_getElem hilt]
    exact h _ (List.getElem_mem hilt)

theorem C5_isComplete_iff_all_final_witness :
    c5Packet.Inputs.length = c5Packet.UnsignedTx.TxIn.length ∧
    (c5Packet.IsComplete = true ↔
      ∀ pin ∈ c5Packet.Inputs, pin.isFinal = true) :=
  ⟨by decide, C5_isComplete_iff_all_final c5Packet (by decide)⟩

/-- C6 (counterexample): the claim's "sum of UTXO values minus sum of
output values" fails on a packet whose two inputs carry `2^62`-valued
witness UTXOs (legal `int64` values) and whose transaction has no outputs:
every input carries UTXO information, the mathematical difference is
`2^63`, but `GetTxFee` computes the fee in Go's wrapping `int64`
arithmetic and returns `-2^63`. -/
theorem C6_counterexample :
    (∀ pr ∈ c6cexPacket.Inputs.zip c6cexPacket.UnsignedTx.TxIn,
      hasUtxoInfo pr.1 pr.2 = true) ∧
    ((c6cexPacket.Inputs.zip c6cexPacket.UnsignedTx.TxIn).map
      (fun pr => inputAmount pr.1 pr.2)).sum -
      (c6cexPacket.UnsignedTx.TxOut.map TxOut.Value).sum = 2 ^ 63 ∧
    c6cexPacket.GetTxFee = .ok (-(2 ^ 63)) ∧
    (-(2 ^ 63) : Int) ≠ 2 ^ 63 := by
  refine ⟨by decide, by decide, by decide, by decide⟩

/-- C6 (amended): when the packet's inputs match the transaction's inputs
in number, `GetTxFee` returns the int64-wrapped difference between the
inputs' resolved UTXO values and the declared output values; this equals
the mathematical difference "sum of UTXO values minus sum of declared
output values" whenever the output values are non-negative with their sum
below `2^63` and the difference itself lies in the `int64` range (as in the
2×100,000-in/150,000-out scenario, which yields 50,000).  It fails with the
missing-UTXO error whenever some input carries no UTXO information (the
remaining inputs either resolving or also lacking data); the function is
pure by construction in this embedding. -/
theorem C6_getTxFee_spec (p : Packet)
    (hlen : p.UnsignedTx.TxIn.length = p.Inputs.length) :
    ((∀ pr ∈ p.Inputs.zip p.UnsignedTx.TxIn, hasUtxoInfo pr.1 pr.2 = true) →
      (∀ o ∈ p.UnsignedTx.TxOut, 0 ≤ o.Value) →
      (p.UnsignedTx.TxOut.map TxOut.Value).sum < 2 ^ 63 →
      -(2 ^ 63) ≤ ((p.Inputs.zip p.UnsignedTx.TxIn).map
        (fun pr => inputAmount pr.1 pr.2)).sum -
        (p.UnsignedTx.TxOut.map TxOut.Value).sum →
      ((p.Inputs.zip p.UnsignedTx.TxIn).map
        (fun pr => inputAmount pr.1 pr.2)).sum -
        (p.UnsignedTx.TxOut.map TxOut.Value).sum < 2 ^ 63 →
      p.GetTxFee = .ok
        (((p.Inputs.zip p.UnsignedTx.TxIn).map
          (fun pr => inputAmount pr.1 pr.2)).sum -
          (p.UnsignedTx.TxOut.map TxOut.Value).sum)) ∧
    ((∀ pr ∈ p.Inputs.zip p.UnsignedTx.TxIn, hasUtxoInfo pr.1 pr.2 = true ∨
        (pr.1.WitnessUtxo = none ∧ pr.1.NonWitnessUtxo = none)) →
      (∃ pr ∈ p.Inputs.zip p.UnsignedTx.TxIn,
        pr.1.WitnessUtxo = none ∧ pr.1.NonWitnessUtxo = none) →
      p.GetTxFee = .error .missingUtxo) := by
  constructor
  · intro hall hnn hout hdlo hdhi
    unfold Packet.GetTxFee SumUtxoInputValues
    rw [if_neg (by omega)]
    rw [sumUtxoGo_all hall]
    dsimp only
    rw [outFoldl_eq_sum _ 0 (by omega) hnn (by omega)]
    rw [show (0 : Int) + (p.UnsignedTx.TxOut.map TxOut.Value).sum =
      (p.UnsignedTx.TxOut.map TxOut.Value).sum by omega]
    rw [wrapInt64_eq_self hdlo hdhi]
  · intro hdis hex
    unfold Packet.GetTxFee SumUtxoInputValues
    rw [if_neg (by omega)]
    rw [sumUtxoGo_missing hdis hex]

theorem C6_getTxFee_spec_witness :
    c6Packet.GetTxFee = .ok 50000 ∧
    c6MissingPacket.GetTxFee = .error .missingUtxo :=
  ⟨((C6_getTxFee_spec c6Packet (by decide)).1 (by decide) (by decide)
      (by decide) (by decide) (by decide)).trans (by decide),
   (C6_getTxFee_spec c6MissingPacket (by decide)).2 (by decide) (by decide)⟩

/-- C7: declared lengths beyond the maxima fail cleanly before any
allocation — a value record declaring more than `MaxPsbtValueLength` bytes
fails `readVarBytes` with the exceeds-maximum error, a key declaring more
than `MaxPsbtKeyLength` bytes fails `getKey` with `ErrInvalidKeyData`, and
a stream whose mandatory global record declares an oversized value is
rejected by `NewFromRawBytes`; parsing is a total function, so no input
can make it crash. -/
theorem C7_length_bounds :
    (∀ (n : Nat) (t : List Nat), MaxPsbtValueLength < n → n < 2 ^ 64 →
      readVarBytes MaxPsbtValueLength (writeVarInt n ++ t) =
        .error .valueExceedsMax) ∧
    (∀ (n : Nat) (t : List Nat), MaxPsbtKeyLength < n → n < 2 ^ 64 →
      getKey (writeVarInt n ++ t) = .error .invalidKeyData) ∧
    (∀ (n : Nat) (t : List Nat), MaxPsbtValueLength < n → n < 2 ^ 64 →
      NewFromRawBytes (psbtMagic ++ ([1, 0] ++ (writeVarInt n ++ t))) =
        .error .valueExceedsMax) := by
  have hval : ∀ (n : Nat) (t : List Nat), MaxPsbtValueLength < n →
      n < 2 ^ 64 → readVarBytes MaxPsbtValueLength (writeVarInt n ++ t) =
      .error .valueExceedsMax := by
    intro n t hbig hlt
    unfold readVarBytes
    rw [readVarInt_writeVarInt hlt]
    dsimp only
    rw [if_pos (by omega)]
  refine ⟨hval, ?_, ?_⟩
  · intro n t hbig hlt
    unfold getKey
    rw [readVarInt_writeVarInt hlt]
    dsimp only
    rw [if_neg (by unfold MaxPsbtKeyLength at hbig; omega),
      if_pos (by omega)]
  · intro n t hbig hlt
    unfold NewFromRawBytes
    rw [readBytes_append_of_length (by rfl)]
    dsimp only
    rw [if_neg (by simp)]
    have hgk : getKey ([1, 0] ++ (writeVarInt n ++ t)) =
        .ok (some (UnsignedTxType, []), writeVarInt n ++ t) := by
      norm_num [getKey, readVarInt, readBytes, UnsignedTxType,
        MaxPsbtKeyLength, MaxPsbtKeyValue, List.take, List.drop]
    rw [hgk]
    dsimp only
    rw [if_neg (by simp)]
    rw [hval n t hbig hlt]

theorem C7_length_bounds_witness :
    readVarBytes MaxPsbtValueLength (writeVarInt 4000001 ++ []) =
      .error .valueExceedsMax ∧
    getKey (writeVarInt 10001 ++ []) = .error .invalidKeyData ∧
    NewFromRawBytes (psbtMagic ++ ([1, 0] ++ (writeVarInt 4000001 ++ []))) =
      .error .valueExceedsMax :=
  ⟨C7_length_bounds.1 4000001 [] (by decide) (by decide),
   C7_length_bounds.2.1 10001 [] (by decide) (by decide),
   C7_length_bounds.2.2 4000001 [] (by decide) (by decide)⟩

/-- C8: with correct magic, if the first global key-value pair is not the
unsigned-transaction type with empty key data, `NewFromRawBytes` fails with
the invalid-format error `ErrInvalidPsbtFormat` and returns no packet. -/
theorem C8_first_key_must_be_unsignedTx (s r1 r2 : List Nat) (kc : Nat)
    (kd : List Nat)
    (h1 : readBytes psbtMagicLength s = .ok (psbtMagic, r1))
    (h2 : getKey r1 = .ok (some (kc, kd), r2))
    (h3 : kc ≠ UnsignedTxType ∨ kd ≠ []) :
    NewFromRawBytes s = .error .invalidFormat := by
  unfold NewFromRawBytes
  rw [h1]
  dsimp only
  rw [if_neg (by simp)]
  rw [h2]
  dsimp only
  rw [if_pos h3]

theorem C8_first_key_must_be_unsignedTx_witness :
    getKey [2, 1, 0] = .ok (some (XPubType, [0]), []) ∧
    NewFromRawBytes c8stream = .error .invalidFormat :=
  ⟨by decide,
    C8_first_key_must_be_unsignedTx c8stream [2, 1, 0] [] XPubType [0]
      (by decide) (by decide) (by decide)⟩

/-- C9: `NewFromUnsignedTx` on an unsigned transaction succeeds and yields
a packet with exactly one (empty, unfinalized) `PInput` per transaction
input and one empty `POutput` per transaction output, which is incomplete
whenever the transaction has at least one input. -/
theorem C9_newFromUnsignedTx_shape (tx : MsgTx)
    (h : validateUnsignedTX tx = true) :
    NewFromUnsignedTx tx =
      .ok ⟨tx, List.replicate tx.TxIn.length PInput.empty,
        List.replicate tx.TxOut.length POutput.empty, [], []⟩ ∧
    (List.replicate tx.TxIn.length PInput.empty).length = tx.TxIn.length ∧
    (List.replicate tx.TxOut.length POutput.empty).length = tx.TxOut.length ∧
    (∀ pin ∈ List.replicate tx.TxIn.length PInput.empty,
      pin.isFinal = false) ∧
    (tx.TxIn ≠ [] →
      Packet.IsComplete ⟨tx, List.replicate tx.TxIn.length PInput.empty,
        List.replicate tx.TxOut.length POutput.empty, [], []⟩ = false) := by
  refine ⟨?_, by simp, by simp, ?_, ?_⟩
  · unfold NewFromUnsignedTx
    simp [h]
  · intro pin hpin
    rw [List.eq_of_mem_replicate hpin]
    rfl
  · intro hne
    have hpos : 0 < tx.TxIn.length := List.length_pos.mpr hne
    unfold Packet.IsComplete
    rw [List.all_eq_false]
    refine ⟨0, List.mem_range.mpr hpos, ?_⟩
    unfold isFinalized
    rw [List.get?_eq_getElem?, List.getElem?_eq_getElem (by simpa using hpos)]
    simp [List.getElem_replicate, PInput.empty]

theorem C9_newFromUnsignedTx_shape_witness :
    validateUnsignedTX c9tx = true ∧
    NewFromUnsignedTx c9tx = .ok c9packet ∧
    c9packet.Inputs.length = 2 ∧ c9packet.Outputs.length = 1 ∧
    c9packet.IsComplete = false :=
  ⟨by decide, (C9_newFromUnsignedTx_shape c9tx (by decide)).1, by decide,
    by decide,
    (C9_newFromUnsignedTx_shape c9tx (by decide)).2.2.2.2 (by decide)⟩

/-- C10: inside the global unknown/xpub loop of `NewFromRawBytes`, every
`getKey` failure — whatever its underlying cause (oversized key, truncated
stream, bad varint) — is reported as the generic invalid-format error
`ErrInvalidPsbtFormat`, so the caller cannot recover the original error. -/
theorem C10_globalLoop_key_error_replaced (firstKeyData s : List Nat)
    (e : Err) (acc : List XPub × List Unknown) (f : Nat)
    (h : getKey s = .error e) :
    parseItems (applyGlobalItem firstKeyData) true (f + 1) s acc =
      .error .invalidFormat := by
  conv_lhs => unfold parseItems
  rw [h]
  rfl

theorem C10_globalLoop_key_error_replaced_witness :
    getKey [2, 7] = .error .unexpectedEOF ∧
    Err.unexpectedEOF ≠ Err.invalidFormat ∧
    parseItems (applyGlobalItem []) true 1 [2, 7] ([], []) =
      .error .invalidFormat :=
  ⟨by decide, by decide,
    C10_globalLoop_key_error_replaced [] [2, 7] .unexpectedEOF ([], []) 0
      (by decide)⟩

end Psbt
